import Mathlib

/-!
Verification development for the navix-ai multi-objective maritime route
optimizer.  The Python sources under `app/engine/` (pareto.py, constraints.py,
objectives.py, hacopso.py) are shallowly embedded below.

Modelling conventions:
* IEEE-754 doubles are modelled by exact rationals (`ℚ`); where the code can
  produce infinities or NaN (the objective evaluator), the dedicated carrier
  `PyFloat` with `fin q | pinf | ninf | nan` is used.
* numpy's parallel arrays of equal length that are permuted in lockstep
  (`solutions` / `objectives` / `metadata` of the archive) are modelled as a
  single list of records.
* `np.argsort`'s default quicksort guarantees no particular order among tied
  values, so sort outputs are treated as an oracle constrained by the
  predicate `IsArgsortDesc` (any permutation arranged by value); the
  executable representative `argsortDescTop` (ties by position) makes the
  model computable, and tie-order-sensitive statements quantify over every
  admissible sort output.
* The global `np.random` stream, consumed single-threadedly in program order,
  is modelled as an explicit stream of standard-uniform rationals threaded
  through every stochastic operation in the order the code draws them.
* The engine's constraint checks pass no `time`, so `check_route` substitutes
  a fresh `datetime.now().timestamp()` on every call; these wall-clock
  readings are an explicit input stream (`Clock`) threaded through the
  engine in call order.
* Transcendental kernels (haversine, heading, the sine of the sinusoidal
  chaos map) and the externally injected ship / ocean contracts are modelled
  as function parameters, exactly as the engine consumes them through its
  injected `ObjectiveFunction` / `ConstraintHandler` / `OceanGrid` objects.
-/

namespace Navix

/-- Internal objective vectors (all-minimization form), `pareto.py`. -/
abbrev ObjVec := List ℚ

/-- Model of `pareto.dominates`: `np.all(a <= b) and np.any(a < b)` componentwise.
numpy requires equal shapes; `zip` realises the componentwise pairing. -/
def dominates (a b : ObjVec) : Bool :=
  ((a.zip b).all fun p => decide (p.1 ≤ p.2)) &&
    ((a.zip b).any fun p => decide (p.1 < p.2))

/-- Model of `range(a, b)` of Python, used by the interior loop of
`crowding_distance`. -/
def pyrange (a b : ℕ) : List ℕ :=
  (List.range (b - a)).map (· + a)

/-- Lexicographic (value, index) comparison underlying the stable model of
`np.argsort` over a list of values. -/
def argRel (vals : List (WithTop ℚ)) (i j : ℕ) : Prop :=
  vals.getD i 0 < vals.getD j 0 ∨ (vals.getD i 0 = vals.getD j 0 ∧ i ≤ j)

instance (vals : List (WithTop ℚ)) : DecidableRel (argRel vals) := by
  intro i j
  unfold argRel
  infer_instance

instance (vals : List (WithTop ℚ)) : IsTotal ℕ (argRel vals) := by
  constructor
  intro i j
  rcases lt_trichotomy (vals.getD i 0) (vals.getD j 0) with h | h | h
  · exact Or.inl (Or.inl h)
  · rcases Nat.le_total i j with hij | hij
    · exact Or.inl (Or.inr ⟨h, hij⟩)
    · exact Or.inr (Or.inr ⟨h.symm, hij⟩)
  · exact Or.inr (Or.inl h)

instance (vals : List (WithTop ℚ)) : IsTrans ℕ (argRel vals) := by
  constructor
  rintro i j k (h1 | ⟨h1, h1'⟩) (h2 | ⟨h2, h2'⟩)
  · exact Or.inl (lt_trans h1 h2)
  · exact Or.inl (h2 ▸ h1)
  · exact Or.inl (h1 ▸ h2)
  · exact Or.inr ⟨h1.trans h2, h1'.trans h2'⟩

/-- Executable representative of ascending `np.argsort` over a
rational-valued column (ties by position; numpy's default quicksort fixes
no tie order, so results that depend on the tie choice are not program
guarantees). -/
def argsortAsc (vals : List ℚ) : List ℕ :=
  List.insertionSort (argRel (vals.map (fun q => (q : WithTop ℚ))))
    (List.range vals.length)

/-- Lexicographic comparison for descending argsort: larger value first,
ties in ascending index order. -/
def argRelDesc (vals : List (WithTop ℚ)) (i j : ℕ) : Prop :=
  vals.getD j 0 < vals.getD i 0 ∨ (vals.getD i 0 = vals.getD j 0 ∧ i ≤ j)

instance (vals : List (WithTop ℚ)) : DecidableRel (argRelDesc vals) := by
  intro i j
  unfold argRelDesc
  infer_instance

instance (vals : List (WithTop ℚ)) : IsTotal ℕ (argRelDesc vals) := by
  constructor
  intro i j
  rcases lt_trichotomy (vals.getD i 0) (vals.getD j 0) with h | h | h
  · exact Or.inr (Or.inl h)
  · rcases Nat.le_total i j with hij | hij
    · exact Or.inl (Or.inr ⟨h, hij⟩)
    · exact Or.inr (Or.inr ⟨h.symm, hij⟩)
  · exact Or.inl (Or.inl h)

instance (vals : List (WithTop ℚ)) : IsTrans ℕ (argRelDesc vals) := by
  constructor
  rintro i j k (h1 | ⟨h1, h1'⟩) (h2 | ⟨h2, h2'⟩)
  · exact Or.inl (lt_trans h2 h1)
  · exact Or.inl (h2 ▸ h1)
  · exact Or.inl (h1 ▸ h2)
  · exact Or.inr ⟨h1.trans h2, h1'.trans h2'⟩

/-- Executable representative of `np.argsort(-distances)` (descending by
distance, ties by position) as used by `ParetoArchiveManager._truncate`;
one admissible output among those `IsArgsortDesc` below describes. -/
def argsortDescTop (vals : List (WithTop ℚ)) : List ℕ :=
  List.insertionSort (argRelDesc vals) (List.range vals.length)

/-- Model of `pareto.crowding_distance`.  Distances live in `WithTop ℚ`: boundary
solutions receive `⊤` (the code's `float("inf")`), and `⊤ + finite = ⊤`
mirrors IEEE `inf + x = inf`.  `front` is the `(N, M)` objective matrix as a
list of rows; `1e-10` is the code's range threshold. -/
def crowding_distance (front : List ObjVec) : List (WithTop ℚ) :=
  let n := front.length
  if n ≤ 2 then List.replicate n ⊤
  else
    let n_objectives := (front.headD []).length
    (List.range n_objectives).foldl (fun distances m =>
      let col : List ℚ := front.map (fun row => row.getD m 0)
      let indices := argsortAsc col
      let sorted_values := indices.map (fun i => col.getD i 0)
      let d1 := distances.set (indices.getD 0 0) ⊤
      let d2 := d1.set (indices.getD (n - 1) 0) ⊤
      let obj_range := sorted_values.getD (n - 1) 0 - sorted_values.getD 0 0
      if obj_range < 1 / 10000000000 then d2
      else
        (pyrange 1 (n - 1)).foldl (fun d i =>
          let slot := indices.getD i 0
          d.set slot (d.getD slot 0 +
            (((sorted_values.getD (i + 1) 0 - sorted_values.getD (i - 1) 0)
              / obj_range : ℚ) : WithTop ℚ))) d2)
      (List.replicate n (0 : WithTop ℚ))

/-- One archived solution.  The Python class keeps three parallel lists
`solutions` / `objectives` / `metadata`, always of equal length and permuted
in lockstep; they are modelled as a single list of these records. -/
structure ArchiveEntry (σ μ : Type) where
  solution : σ
  objective : ObjVec
  meta : μ
deriving DecidableEq

/-- State of `pareto.ParetoArchiveManager`. -/
structure ParetoArchiveManager (σ μ : Type) where
  max_size : ℕ
  entries : List (ArchiveEntry σ μ)
deriving DecidableEq

/-- Model of `list[i]` for a list of index positions: `[xs[i] for i in idx]`. -/
def selectIdx {α : Type} (l : List α) (idx : List ℕ) : List α :=
  idx.filterMap (fun i => l.get? i)

/-- What `np.argsort(-distances)` is guaranteed to return for `_truncate`:
some permutation of all positions arranged by descending distance.  numpy's
default quicksort fixes no order among tied values, so any `idx` satisfying
this predicate is an admissible sort output; `argsortDescTop` below is the
concrete representative used to make the model executable. -/
def IsArgsortDesc (vals : List (WithTop ℚ)) (idx : List ℕ) : Prop :=
  idx.Perm (List.range vals.length) ∧
    idx.Pairwise (fun i j => vals.getD j 0 ≤ vals.getD i 0)

instance (vals : List (WithTop ℚ)) (idx : List ℕ) :
    Decidable (IsArgsortDesc vals idx) :=
  inferInstanceAs (Decidable (_ ∧ _))

/-- Model of `ParetoArchiveManager._truncate` with the `np.argsort(-distances)`
output supplied as an oracle `idx` (any admissible descending sort of the
crowding distances): keep the entries at the first `max_size` sorted
positions. -/
def ParetoArchiveManager.truncate_with {σ μ : Type} (A : ParetoArchiveManager σ μ)
    (idx : List ℕ) : ParetoArchiveManager σ μ :=
  if A.entries.length ≤ A.max_size then A
  else { A with entries := selectIdx A.entries (idx.take A.max_size) }

/-- Model of `ParetoArchiveManager._truncate` at the concrete stable argsort
representative (descending crowding distance, ties by position). -/
def ParetoArchiveManager.truncate {σ μ : Type} (A : ParetoArchiveManager σ μ) :
    ParetoArchiveManager σ μ :=
  A.truncate_with (argsortDescTop (crowding_distance (A.entries.map (·.objective))))

/-- Model of `ParetoArchiveManager.add`.  Returns the Python method's boolean result
together with the updated archive. -/
def ParetoArchiveManager.add {σ μ : Type} (A : ParetoArchiveManager σ μ)
    (solution : σ) (objective_values : ObjVec) (metadata : μ) :
    Bool × ParetoArchiveManager σ μ :=
  if A.entries.any (fun e => dominates e.objective objective_values) then
    (false, A)
  else
    let kept := A.entries.filter (fun e => !(dominates objective_values e.objective))
    let entries1 := kept ++ [⟨solution, objective_values, metadata⟩]
    let A1 : ParetoArchiveManager σ μ := { A with entries := entries1 }
    (true, if A.max_size < entries1.length then A1.truncate else A1)

/-- Model of `ParetoArchiveManager.size`. -/
def ParetoArchiveManager.size {σ μ : Type} (A : ParetoArchiveManager σ μ) : ℕ :=
  A.entries.length

/-- First index of the minimum of a rational list (`np.argmin`). -/
def argminQ (l : List ℚ) : ℕ :=
  (l.enum.foldl (fun best p => if p.2 < l.getD best.1 0 then p else best)
    (0, l.getD 0 0)).1

/-- Minimum of a rational list (`np.min` over a nonempty column). -/
def listMinQ (l : List ℚ) : ℚ :=
  l.foldl (fun a b => if b < a then b else a) (l.headD 0)

/-- Maximum of a rational list (`np.max` over a nonempty column). -/
def listMaxQ (l : List ℚ) : ℚ :=
  l.foldl (fun a b => if a < b then b else a) (l.headD 0)

/-- Model of `np.dot` of two equal-length vectors. -/
def dotQ (a b : List ℚ) : ℚ :=
  ((a.zip b).map fun p => p.1 * p.2).sum

/-- Model of `ParetoArchiveManager.get_compromise`: range-normalize each objective
column (ranges below `1e-10` replaced by 1), score rows by the weighted sum,
return the first row attaining the minimum score. -/
def ParetoArchiveManager.get_compromise {σ μ : Type} (A : ParetoArchiveManager σ μ)
    (weights : List ℚ) : Option (σ × ObjVec) :=
  match A.entries with
  | [] => none
  | e0 :: _ =>
    let M := e0.objective.length
    let mins := (List.range M).map
      (fun k => listMinQ (A.entries.map (fun e => e.objective.getD k 0)))
    let maxs := (List.range M).map
      (fun k => listMaxQ (A.entries.map (fun e => e.objective.getD k 0)))
    let ranges := (List.range M).map (fun k =>
      let r := maxs.getD k 0 - mins.getD k 0
      if r < 1 / 10000000000 then 1 else r)
    let normalized := A.entries.map (fun e => (List.range M).map (fun k =>
      (e.objective.getD k 0 - mins.getD k 0) / ranges.getD k 0))
    let scores := normalized.map (fun row => dotQ row weights)
    let best_idx := argminQ scores
    let best := A.entries.getD best_idx e0
    some (best.solution, best.objective)

/-- Mutual non-domination of two archive entries. -/
def EntryNonDom {σ μ : Type} (e1 e2 : ArchiveEntry σ μ) : Prop :=
  dominates e1.objective e2.objective = false ∧
    dominates e2.objective e1.objective = false

/-- The strict-antichain invariant of the archive. -/
def PairwiseNonDom {σ μ : Type} (l : List (ArchiveEntry σ μ)) : Prop :=
  l.Pairwise EntryNonDom

instance {σ μ : Type} (e1 e2 : ArchiveEntry σ μ) : Decidable (EntryNonDom e1 e2) :=
  inferInstanceAs (Decidable (_ ∧ _))

instance {σ μ : Type} (l : List (ArchiveEntry σ μ)) : Decidable (PairwiseNonDom l) :=
  inferInstanceAs (Decidable (l.Pairwise _))

/-- A route: list of `(lat, lon)` waypoints (`constraints.py`, `hacopso.py`). -/
abbrev Route := List (ℚ × ℚ)

/-- Model of `constraints.ConstraintViolation` (formatted description strings elided
to plain tags). -/
structure ConstraintViolation where
  constraint_type : String
  waypoint_index : Option ℕ
  severity : ℚ
  description : String
deriving DecidableEq

/-- Penalty weights, `ConstraintHandler` class constants. -/
def LAND_PENALTY : ℚ := 1000000

/-- Model of `ConstraintHandler.STORM_PENALTY`. -/
def STORM_PENALTY : ℚ := 10000

/-- Model of `ConstraintHandler.PIRACY_PENALTY`. -/
def PIRACY_PENALTY : ℚ := 1000

/-- Model of `ConstraintHandler.DEPTH_PENALTY`. -/
def DEPTH_PENALTY : ℚ := 100000

/-- Model of `ConstraintHandler.SPEED_PENALTY`. -/
def SPEED_PENALTY : ℚ := 100

/-- Model of `ConstraintHandler.FUEL_PENALTY`. -/
def FUEL_PENALTY : ℚ := 10000

/-- Python's built-in `min(a, b)` on numbers. -/
def pyminQ (a b : ℚ) : ℚ := if b < a then b else a

/-- The spatial queries `constraints.ConstraintHandler` makes against the
injected `OceanGrid` (the external §4.A contract): land mask, depth (the
handler guards a `None` depth), storm risk at a time, piracy risk. -/
structure OceanQueries where
  is_land : ℚ → ℚ → Bool
  get_depth : ℚ → ℚ → Option ℚ
  get_storm_risk : ℚ → ℚ → ℚ → ℚ
  get_piracy_risk : ℚ → ℚ → ℚ

/-- Model of `constraints.ConstraintHandler` configuration state. -/
structure ConstraintHandler where
  ocean : OceanQueries
  min_depth : ℚ
  min_speed : ℚ
  max_speed : ℚ
  max_fuel : Option ℚ

/-- Model of `ConstraintHandler.check_route`.  `now` models `datetime.now().timestamp()`;
Python's `time or now` treats a zero timestamp as falsy. -/
def check_route (H : ConstraintHandler) (route : Route)
    (speeds : Option (List ℚ)) (time : Option ℚ)
    (fuel_consumption : Option ℚ) (now : ℚ) : List ConstraintViolation :=
  let t := match time with
    | some tv => if tv = 0 then now else tv
    | none => now
  let waypoint_violations := route.enum.flatMap (fun p =>
    let i := p.1
    let lat := p.2.1
    let lon := p.2.2
    (if H.ocean.is_land lat lon then
      [⟨"land", some i, 1, "crosses land"⟩] else []) ++
    (match H.ocean.get_depth lat lon with
      | some depth =>
        if depth < H.min_depth then
          [⟨"depth", some i, pyminQ 1 ((H.min_depth - depth) / H.min_depth),
            "insufficient depth"⟩]
        else []
      | none => []) ++
    (if 4/5 < H.ocean.get_storm_risk lat lon t then
      [⟨"storm", some i, H.ocean.get_storm_risk lat lon t, "high storm risk"⟩]
     else []) ++
    (if 7/10 < H.ocean.get_piracy_risk lat lon then
      [⟨"piracy", some i, H.ocean.get_piracy_risk lat lon, "high piracy risk"⟩]
     else []))
  let speed_violations := match speeds with
    | none => []
    | some sp => sp.enum.flatMap (fun p =>
        if p.2 < H.min_speed then
          [⟨"speed", some p.1, pyminQ 1 ((H.min_speed - p.2) / H.min_speed),
            "below minimum speed"⟩]
        else if H.max_speed < p.2 then
          [⟨"speed", some p.1, pyminQ 1 ((p.2 - H.max_speed) / H.max_speed),
            "exceeds maximum speed"⟩]
        else [])
  let fuel_violations := match H.max_fuel, fuel_consumption with
    | some mf, some fc =>
      if mf < fc then
        [⟨"fuel", none, pyminQ 1 ((fc - mf) / mf), "exceeds fuel limit"⟩]
      else []
    | _, _ => []
  waypoint_violations ++ speed_violations ++ fuel_violations

/-- Per-kind penalty weight dispatch of `ConstraintHandler.calculate_penalty`. -/
def penalty_weight (t : String) : ℚ :=
  if t = "land" then LAND_PENALTY
  else if t = "depth" then DEPTH_PENALTY
  else if t = "storm" then STORM_PENALTY
  else if t = "piracy" then PIRACY_PENALTY
  else if t = "speed" then SPEED_PENALTY
  else if t = "fuel" then FUEL_PENALTY
  else 0

/-- Model of `ConstraintHandler.calculate_penalty`. -/
def calculate_penalty (violations : List ConstraintViolation) : ℚ :=
  violations.foldl (fun acc v => acc + penalty_weight v.constraint_type * v.severity) 0

/-- Model of `ConstraintHandler.is_feasible`: only land violations are hard. -/
def is_feasible (H : ConstraintHandler) (route : Route)
    (speeds : Option (List ℚ)) (time : Option ℚ)
    (fuel_consumption : Option ℚ) (now : ℚ) : Bool :=
  !((check_route H route speeds time fuel_consumption now).any
    (fun v => v.constraint_type == "land"))

/-- The displacement candidates tried by `ConstraintHandler.repair_route`,
in the code's `for delta: for direction:` order.  The code's direction list
has SIX entries — `(1,0), (-1,0), (0,1), (0,-1), (1,1), (-1,-1)` — i.e.
N, S, E, W, NE, SW in (lat, lon) terms. -/
def perturb_candidates (lat lon : ℚ) : Route :=
  ([1/10, 1/5, 1/2, 1] : List ℚ).flatMap (fun delta =>
    ([(1, 0), (-1, 0), (0, 1), (0, -1), (1, 1), (-1, -1)] : List (ℚ × ℚ)).map
      (fun direction =>
        (lat + delta * direction.1, lon + delta * direction.2)))

/-- One waypoint fix of `repair_route`'s inner loops: accept the first
candidate displacement whose coordinate is not land; never move index 0 or
the last index. -/
def repair_fix_one (oc : OceanQueries) (route : Route)
    (v : ConstraintViolation) : Route :=
  match v.waypoint_index with
  | none => route
  | some idx =>
    if idx = 0 ∨ idx = route.length - 1 then route
    else
      let lat := (route.getD idx (0, 0)).1
      let lon := (route.getD idx (0, 0)).2
      match (perturb_candidates lat lon).find?
          (fun c => !(oc.is_land c.1 c.2)) with
      | some c => route.set idx c
      | none => route

/-- One pass of `repair_route`'s outer loop: returns the updated route and
whether the loop breaks (no land violations found). -/
def repair_pass (H : ConstraintHandler) (now : ℚ) (route : Route) :
    Route × Bool :=
  let violations := check_route H route none none none now
  let land_violations := violations.filter (fun v => v.constraint_type == "land")
  if land_violations.isEmpty then (route, true)
  else (land_violations.foldl (fun r v => repair_fix_one H.ocean r v) route, false)

/-- Model of `ConstraintHandler.repair_route` with its pass budget (`max_iterations`,
default 10). -/
def repair_route (H : ConstraintHandler) (now : ℚ) (route : Route) :
    ℕ → Route
  | 0 => route
  | k + 1 =>
    let step := repair_pass H now route
    if step.2 then route else repair_route H now step.1 k

/-- What a repair step may do to a route, relative to `r0`: the length and
the two endpoint slots are untouched, and every changed slot holds a
non-land coordinate (it was accepted by the candidate search). -/
def RepairInvariant (oc : OceanQueries) (r0 r : Route) : Prop :=
  r.length = r0.length ∧
  r.getD 0 (0, 0) = r0.getD 0 (0, 0) ∧
  r.getD (r0.length - 1) (0, 0) = r0.getD (r0.length - 1) (0, 0) ∧
  ∀ i, r.getD i (0, 0) = r0.getD i (0, 0) ∨
    oc.is_land (r.getD i (0, 0)).1 (r.getD i (0, 0)).2 = false

/-- Ocean used by the repair counterexample: water exactly at the route's
endpoints and at the eight-compass diagonal displacements NW/SE of `(5, 5)`
— the two directions the code's six-entry direction list omits. -/
def repairCexWater : List (ℚ × ℚ) :=
  [(0, 0), (10, 10),
   (5 + 1/10, 5 - 1/10), (5 - 1/10, 5 + 1/10),
   (5 + 1/5, 5 - 1/5), (5 - 1/5, 5 + 1/5),
   (5 + 1/2, 5 - 1/2), (5 - 1/2, 5 + 1/2),
   (6, 4), (4, 6)]

/-- Constraint handler over `repairCexWater` (no depth data, no storms, no
piracy). -/
def repairCexHandler : ConstraintHandler :=
  ⟨⟨fun lat lon => !(repairCexWater.contains (lat, lon)),
    fun _ _ => none, fun _ _ _ => 0, fun _ _ => 0⟩, 15, 5, 25, none⟩

/-- Handler whose only land cell is the point `(5, 5)`: the very first
repair candidate (delta 0.1, direction `(1, 0)`) is water, so a repair pass
accepts it.  Used to exercise the first-accepted-candidate
characterization concretely. -/
def repairAccHandler : ConstraintHandler :=
  ⟨⟨fun lat lon => decide (lat = 5) && decide (lon = 5),
    fun _ _ => none, fun _ _ _ => 0, fun _ _ => 0⟩, 15, 5, 25, none⟩

/-- Symbolic model of IEEE-754 doubles as the evaluator sees them: exact
rationals (rounding abstracted away) plus the two infinities and NaN, which
the code produces (`float("inf")`) and propagates through numpy arithmetic. -/
inductive PyFloat where
  | fin (q : ℚ)
  | pinf
  | ninf
  | nan
deriving DecidableEq

/-- IEEE addition on the symbolic floats. -/
def PyFloat.add : PyFloat → PyFloat → PyFloat
  | nan, _ => nan
  | _, nan => nan
  | pinf, ninf => nan
  | ninf, pinf => nan
  | pinf, _ => pinf
  | _, pinf => pinf
  | ninf, _ => ninf
  | _, ninf => ninf
  | fin a, fin b => fin (a + b)

/-- IEEE negation. -/
def PyFloat.neg : PyFloat → PyFloat
  | fin a => fin (-a)
  | pinf => ninf
  | ninf => pinf
  | nan => nan

/-- IEEE subtraction. -/
def PyFloat.sub (a b : PyFloat) : PyFloat :=
  PyFloat.add a (PyFloat.neg b)

/-- IEEE multiplication (`inf * 0 = nan`, sign rules for infinities). -/
def PyFloat.mul : PyFloat → PyFloat → PyFloat
  | nan, _ => nan
  | _, nan => nan
  | fin a, fin b => fin (a * b)
  | fin a, pinf => if a = 0 then nan else if 0 < a then pinf else ninf
  | fin a, ninf => if a = 0 then nan else if 0 < a then ninf else pinf
  | pinf, fin b => if b = 0 then nan else if 0 < b then pinf else ninf
  | ninf, fin b => if b = 0 then nan else if 0 < b then ninf else pinf
  | pinf, pinf => pinf
  | pinf, ninf => ninf
  | ninf, pinf => ninf
  | ninf, ninf => pinf

/-- IEEE `<` (any comparison against NaN is false). -/
def PyFloat.lt : PyFloat → PyFloat → Bool
  | nan, _ => false
  | _, nan => false
  | ninf, ninf => false
  | ninf, _ => true
  | _, ninf => false
  | pinf, _ => false
  | fin _, pinf => true
  | fin a, fin b => decide (a < b)

/-- Errors an evaluation run can stop with: a division whose divisor is
exactly zero, or an ocean-environment query that raises. -/
inductive EvalError where
  | div_by_zero
  | ocean_fault
deriving DecidableEq

/-- Division, flagging a divisor of exactly zero as an error (the hazard the
evaluator's `if effective_speed > 0` guard exists to avoid); otherwise IEEE
rules (`x / ±inf = 0`, `±inf / ±inf = nan`, NaN propagates). -/
def PyFloat.div (a b : PyFloat) : Except EvalError PyFloat :=
  match b with
  | .fin q =>
    if q = 0 then .error .div_by_zero
    else
      match a with
      | .fin p => .ok (.fin (p / q))
      | .pinf => .ok (if 0 < q then .pinf else .ninf)
      | .ninf => .ok (if 0 < q then .ninf else .pinf)
      | .nan => .ok .nan
  | .pinf =>
    match a with
    | .fin _ => .ok (.fin 0)
    | _ => .ok .nan
  | .ninf =>
    match a with
    | .fin _ => .ok (.fin 0)
    | _ => .ok .nan
  | .nan => .ok .nan

/-- Python's built-in `max(x, y)`: keep `x`, replace by `y` only when
`y > x` (so `max(nan, y) = nan`, `max(x, nan) = x`). -/
def pymaxF (x y : PyFloat) : PyFloat :=
  if PyFloat.lt x y then y else x

/-- Python's built-in `min(x, y)`: keep `x`, replace by `y` only when
`y < x`. -/
def pyminF (x y : PyFloat) : PyFloat :=
  if PyFloat.lt y x then y else x

/-- Model of `objectives.ObjectiveValues`, carried in the float model.  `comfort` is
stored user-facing (higher is better); `to_array` emits the minimization
form with `1 - comfort`. -/
structure ObjectiveValues where
  fuel : PyFloat
  time : PyFloat
  risk : PyFloat
  emissions : PyFloat
  comfort : PyFloat
deriving DecidableEq

/-- Model of `ObjectiveValues.to_array`. -/
def ObjectiveValues.to_array (v : ObjectiveValues) : List PyFloat :=
  [v.fuel, v.time, v.risk, v.emissions, PyFloat.sub (.fin 1) v.comfort]

/-- Model of `ObjectiveFunction.CO2_FACTOR` (3.114 t CO₂ per t fuel). -/
def CO2_FACTOR : ℚ := 3114 / 1000

/-- The §4.B ship contract as the evaluator consumes it:
`service_speed`/`min_speed` plus `calculate_fuel_consumption(speed, hours)`
(an injected external implementation). -/
structure ShipModel where
  service_speed : ℚ
  min_speed : ℚ
  calculate_fuel_consumption : ℚ → PyFloat → PyFloat

/-- The §4.A ocean contract as the evaluator consumes it.  Each query may
raise (Python exceptions modelled as `Except`); the evaluator has no
handler, so a raise propagates. -/
structure OceanEnv where
  get_resistance : ℚ → ℚ → PyFloat → Except EvalError PyFloat
  get_current_vector : ℚ → ℚ → PyFloat → Except EvalError (PyFloat × PyFloat)
  get_storm_risk : ℚ → ℚ → PyFloat → Except EvalError PyFloat
  get_piracy_risk : ℚ → ℚ → Except EvalError PyFloat
  get_wave_height : ℚ → ℚ → PyFloat → Except EvalError PyFloat

/-- The transcendental static helpers of `objectives.ObjectiveFunction`
(`_haversine_nm`, `_calculate_heading`, `_current_speed_effect`), abstracted
as real-valued kernels: their closed forms use `sin`/`cos`/`atan2`, which
have no executable rational embedding. -/
structure GeoKernel where
  haversine_nm : ℚ → ℚ → ℚ → ℚ → PyFloat
  calculate_heading : ℚ → ℚ → ℚ → ℚ → PyFloat
  current_speed_effect : PyFloat → PyFloat → PyFloat → PyFloat

/-- Model of `objectives.ObjectiveFunction` state. -/
structure ObjectiveFunction where
  ship : ShipModel
  ocean : OceanEnv
  geo : GeoKernel
  departure_time : ℚ

/-- The evaluator's one-line guard:
`leg_time = distance_nm / effective_speed if effective_speed > 0 else inf`. -/
def leg_time_of (distance_nm effective_speed : PyFloat) :
    Except EvalError PyFloat :=
  if PyFloat.lt (.fin 0) effective_speed then
    PyFloat.div distance_nm effective_speed
  else .ok .pinf

/-- Running totals of the per-leg loop of `ObjectiveFunction.evaluate`. -/
structure LegAcc where
  total_fuel : PyFloat
  total_time : PyFloat
  total_risk : PyFloat
  total_wave_exposure : PyFloat
  current_time : PyFloat
deriving DecidableEq

/-- One iteration of the per-leg loop of `ObjectiveFunction.evaluate`
(route leg `i → i+1`). -/
def evaluate_leg (F : ObjectiveFunction) (route : Route) (speeds : List ℚ)
    (acc : LegAcc) (i : ℕ) : Except EvalError LegAcc := do
  let p1 := route.getD i (0, 0)
  let p2 := route.getD (i + 1) (0, 0)
  let speed := speeds.getD i 0
  let distance_nm := F.geo.haversine_nm p1.1 p1.2 p2.1 p2.2
  let mid_lat := (p1.1 + p2.1) / 2
  let mid_lon := (p1.2 + p2.2) / 2
  let resistance ← F.ocean.get_resistance mid_lat mid_lon acc.current_time
  let current ← F.ocean.get_current_vector mid_lat mid_lon acc.current_time
  let storm_risk ← F.ocean.get_storm_risk mid_lat mid_lon acc.current_time
  let piracy_risk ← F.ocean.get_piracy_risk mid_lat mid_lon
  let wave_height ← F.ocean.get_wave_height mid_lat mid_lon acc.current_time
  let heading := F.geo.calculate_heading p1.1 p1.2 p2.1 p2.2
  let current_effect := F.geo.current_speed_effect current.1 current.2 heading
  let effective_speed := pymaxF (PyFloat.add (.fin speed) current_effect)
    (.fin F.ship.min_speed)
  let leg_time ← leg_time_of distance_nm effective_speed
  let base_fuel := F.ship.calculate_fuel_consumption speed leg_time
  let adjusted_fuel := PyFloat.mul base_fuel resistance
  let lt24 ← PyFloat.div leg_time (.fin 24)
  let leg_risk := PyFloat.mul (pymaxF storm_risk piracy_risk) lt24
  .ok ⟨PyFloat.add acc.total_fuel adjusted_fuel,
       PyFloat.add acc.total_time leg_time,
       PyFloat.add acc.total_risk leg_risk,
       PyFloat.add acc.total_wave_exposure (PyFloat.mul wave_height leg_time),
       PyFloat.add acc.current_time (PyFloat.mul leg_time (.fin 3600))⟩

/-- Model of `ObjectiveFunction.evaluate`.  `speeds0 = none` defaults every leg to the
service speed (`np.full`); routes of fewer than 2 waypoints return the fixed
degenerate tuple `(inf, inf, 1, inf, 0)` without touching any leg. -/
def evaluate (F : ObjectiveFunction) (route : Route)
    (speeds0 : Option (List ℚ)) : Except EvalError ObjectiveValues :=
  if route.length < 2 then
    .ok ⟨.pinf, .pinf, .fin 1, .pinf, .fin 0⟩
  else do
    let speeds := match speeds0 with
      | some s => s
      | none => List.replicate (route.length - 1) F.ship.service_speed
    let acc ← (List.range (route.length - 1)).foldlM
      (fun acc i => evaluate_leg F route speeds acc i)
      (⟨.fin 0, .fin 0, .fin 0, .fin 0, .fin F.departure_time⟩ : LegAcc)
    let risk_score := pyminF (.fin 1) acc.total_risk
    let avg_wave ← PyFloat.div acc.total_wave_exposure
      (pymaxF acc.total_time (.fin 1))
    let wnorm ← PyFloat.div avg_wave (.fin 10)
    let comfort_score := pymaxF (.fin 0) (PyFloat.sub (.fin 1) wnorm)
    let emissions := PyFloat.mul acc.total_fuel (.fin CO2_FACTOR)
    .ok ⟨acc.total_fuel, acc.total_time, risk_score, emissions, comfort_score⟩

/-- An ocean environment none of whose queries ever raises. -/
def OceanTotal (oc : OceanEnv) : Prop :=
  (∀ lat lon t, ∃ v, oc.get_resistance lat lon t = .ok v) ∧
  (∀ lat lon t, ∃ v, oc.get_current_vector lat lon t = .ok v) ∧
  (∀ lat lon t, ∃ v, oc.get_storm_risk lat lon t = .ok v) ∧
  (∀ lat lon, ∃ v, oc.get_piracy_risk lat lon = .ok v) ∧
  (∀ lat lon t, ∃ v, oc.get_wave_height lat lon t = .ok v)

/-- Environment for the C8 counterexample: the resistance query always
raises; every other query succeeds. -/
def faultOcean : OceanEnv :=
  ⟨fun _ _ _ => .error .ocean_fault, fun _ _ _ => .ok (.fin 0, .fin 0),
   fun _ _ _ => .ok (.fin 0), fun _ _ => .ok (.fin 0), fun _ _ _ => .ok (.fin 0)⟩

/-- Objective function over `faultOcean` with trivial ship and geodesy. -/
def faultObjective : ObjectiveFunction :=
  ⟨⟨10, 5, fun _ _ => .fin 1⟩, faultOcean,
   ⟨fun _ _ _ _ => .fin 1, fun _ _ _ _ => .fin 0, fun _ _ _ => .fin 0⟩, 0⟩

/-- Model of `hacopso.ChaosType`. -/
inductive ChaosType where
  | logistic
  | tent
  | sinusoidal
deriving DecidableEq

/-- Model of `hacopso.HACOPSOConfig` (the Python defaults are supplied at call
sites). -/
structure HACOPSOConfig where
  swarm_size : ℕ
  max_iterations : ℕ
  archive_size : ℕ
  w_max : ℚ
  w_min : ℚ
  c1 : ℚ
  c2 : ℚ
  v_max_lat : ℚ
  v_max_lon : ℚ
  opposition_rate : ℚ
  chaos_type : ChaosType
  n_waypoints : ℕ
  stagnation_limit : ℕ
deriving DecidableEq

/-- Model of `hacopso.Particle`. -/
structure Particle where
  position : Route
  velocity : Route
  speeds : List ℚ
  personal_best : Route
  personal_best_obj : ObjVec
  fitness : ℚ
deriving DecidableEq

/-- Placeholder particle for out-of-range list reads in statements. -/
def dfltParticle : Particle :=
  ⟨[], [], [], [], [], 0⟩

/-- The global `np.random` stream: standard-uniform draws indexed by the
number of draws made so far.  Single-threaded code consumes it in program
order, which the explicit index models. -/
structure Rng where
  stream : ℕ → ℚ
  idx : ℕ

/-- One `np.random.random()` draw. -/
def Rng.next (r : Rng) : ℚ × Rng :=
  (r.stream r.idx, ⟨r.stream, r.idx + 1⟩)

/-- Model of `n` consecutive raw draws (C-order fill of an array). -/
def Rng.take (r : Rng) (n : ℕ) : List ℚ × Rng :=
  ((List.range n).map (fun k => r.stream (r.idx + k)), ⟨r.stream, r.idx + n⟩)

/-- Model of `np.random.uniform(lo, hi)` scaling of a raw draw. -/
def Rng.uniform (r : Rng) (lo hi : ℚ) : ℚ × Rng :=
  let p := r.next
  (lo + (hi - lo) * p.1, p.2)

/-- Model of `np.random.uniform(lo, hi, n)`. -/
def Rng.uniformList (r : Rng) (lo hi : ℚ) (n : ℕ) : List ℚ × Rng :=
  let p := r.take n
  (p.1.map (fun u => lo + (hi - lo) * u), p.2)

/-- Group a flat C-order list into `(lat, lon)` rows. -/
def toPairs : List ℚ → Route
  | a :: b :: rest => (a, b) :: toPairs rest
  | _ => []

/-- Model of `np.random.uniform(lo, hi, (n, 2))`. -/
def Rng.uniformPairs (r : Rng) (lo hi : ℚ) (n : ℕ) : Route × Rng :=
  let p := r.uniformList lo hi (2 * n)
  (toPairs p.1, p.2)

/-- Model of `np.random.random((n, 2))`. -/
def Rng.randomPairs (r : Rng) (n : ℕ) : Route × Rng :=
  let p := r.take (2 * n)
  (toPairs p.1, p.2)

/-- Model of `np.clip(x, lo, hi)`. -/
def clipQ (x lo hi : ℚ) : ℚ :=
  min (max x lo) hi

/-- The wall clock as the engine observes it.  Every `check_route` call the
engine makes passes no `time` argument, so `constraints.check_route`
substitutes a fresh `datetime.now().timestamp()` reading on each call; the
sequence of readings is an input stream consumed in program order, one
reading per constraint check. -/
structure Clock where
  stream : ℕ → ℚ
  idx : ℕ

/-- One `datetime.now().timestamp()` reading. -/
def Clock.tick (c : Clock) : ℚ × Clock :=
  (c.stream c.idx, ⟨c.stream, c.idx + 1⟩)

/-- What `HACOPSOEngine` consumes from its injected collaborators: the
objective evaluator (modelled rational-valued: `evaluate(...).to_array()`),
the constraint check — which, because the engine passes no `time`, receives
the wall-clock timestamp `constraints.check_route` reads from
`datetime.now()` as its third argument — the ship's speed figures, and the
sine kernel `x ↦ sin(π·x)` of the sinusoidal chaos map (transcendental,
abstracted). -/
structure EngineDeps where
  evaluate_obj : Route → List ℚ → ObjVec
  check_route_deps : Route → List ℚ → ℚ → List ConstraintViolation
  service_speed : ℚ
  ship_min_speed : ℚ
  ship_max_speed : ℚ
  chaos_sin : ℚ → ℚ

/-- Model of `hacopso.HACOPSOEngine` state. -/
structure HACOPSOEngine where
  config : HACOPSOConfig
  origin : ℚ × ℚ
  destination : ℚ × ℚ
  weights : List ℚ
  archive : ParetoArchiveManager Route (List ℚ)
  particles : List Particle
  global_best : Option Route
  global_best_obj : Option ObjVec
  chaos_value : ℚ
  iteration : ℕ
  stagnation_count : ℕ
  convergence_history : List ℚ

/-- Model of `HACOPSOEngine.__init__` (draws `chaos_value = np.random.random()`). -/
def HACOPSOEngine.init (config : HACOPSOConfig) (origin destination : ℚ × ℚ)
    (weights : Option (List ℚ)) (rng : Rng) : HACOPSOEngine × Rng :=
  let p := rng.next
  ({ config := config, origin := origin, destination := destination,
     weights := weights.getD [1/5, 1/5, 1/5, 1/5, 1/5],
     archive := ⟨config.archive_size, []⟩,
     particles := [], global_best := none, global_best_obj := none,
     chaos_value := p.1, iteration := 0, stagnation_count := 0,
     convergence_history := [] }, p.2)

/-- Model of `HACOPSOEngine._get_bounds`: `((lat_lo, lat_hi), (lon_lo, lon_hi))`. -/
def HACOPSOEngine.get_bounds (s : HACOPSOEngine) : (ℚ × ℚ) × (ℚ × ℚ) :=
  ((min s.origin.1 s.destination.1 - 10, max s.origin.1 s.destination.1 + 10),
   (min s.origin.2 s.destination.2 - 10, max s.origin.2 s.destination.2 + 10))

/-- Model of `HACOPSOEngine._generate_random_route`. -/
def HACOPSOEngine.generate_random_route (s : HACOPSOEngine)
    (bounds : (ℚ × ℚ) × (ℚ × ℚ)) (rng : Rng) : Route × Rng :=
  let n_wp := s.config.n_waypoints
  let step := fun (acc : Route × Rng) (k : ℕ) =>
    let i := k + 1
    let t : ℚ := (i : ℚ) / ((n_wp : ℚ) + 1)
    let base_lat := s.origin.1 * (1 - t) + s.destination.1 * t
    let base_lon := s.origin.2 * (1 - t) + s.destination.2 * t
    let d1 := acc.2.uniform (-5) 5
    let d2 := d1.2.uniform (-5) 5
    (acc.1 ++ [(clipQ (base_lat + d1.1) bounds.1.1 bounds.1.2,
                clipQ (base_lon + d2.1) bounds.2.1 bounds.2.2)], d2.2)
  let interior := (List.range n_wp).foldl step ([], rng)
  ([s.origin] ++ interior.1 ++ [s.destination], interior.2)

/-- Model of `HACOPSOEngine._opposition_route`: mirror interior waypoints across the
bounds, clamped; endpoints untouched. -/
def opposition_route (bounds : (ℚ × ℚ) × (ℚ × ℚ)) (route : Route) : Route :=
  route.enum.map (fun p =>
    if 1 ≤ p.1 ∧ p.1 + 1 < route.length then
      (clipQ (bounds.1.1 + bounds.1.2 - p.2.1) bounds.1.1 bounds.1.2,
       clipQ (bounds.2.1 + bounds.2.2 - p.2.2) bounds.2.1 bounds.2.2)
    else p.2)

/-- Model of `HACOPSOEngine._create_particle`: random velocity, jittered clamped
speeds, evaluate, penalize (the constraint check reads the wall clock),
fitness = weighted objectives + penalty. -/
def HACOPSOEngine.create_particle (deps : EngineDeps) (s : HACOPSOEngine)
    (route : Route) (rng : Rng) (clk : Clock) : Particle × Rng × Clock :=
  let pv := rng.uniformPairs (-s.config.v_max_lat) s.config.v_max_lat route.length
  let pn := pv.2.uniformList (-2) 2 (route.length - 1)
  let speeds := pn.1.map (fun u =>
    clipQ (deps.service_speed + u) deps.ship_min_speed deps.ship_max_speed)
  let obj_array := deps.evaluate_obj route speeds
  let tc := clk.tick
  let violations := deps.check_route_deps route speeds tc.1
  let penalty := calculate_penalty violations
  let fitness := dotQ s.weights obj_array + penalty
  (⟨route, pv.1, speeds, route, obj_array, fitness⟩, pn.2, tc.2)

/-- Model of `HACOPSOEngine._chaotic_inertia_weight`: advance the chaos state, clamp
it to `[0.01, 0.99]`, and modulate the linearly decaying base inertia. -/
def HACOPSOEngine.chaotic_inertia_weight (deps : EngineDeps)
    (s : HACOPSOEngine) : ℚ × HACOPSOEngine :=
  let x0 := s.chaos_value
  let x1 := match s.config.chaos_type with
    | .logistic => 4 * x0 * (1 - x0)
    | .tent => if x0 < 1/2 then 2 * x0 else 2 * (1 - x0)
    | .sinusoidal => deps.chaos_sin x0
  let x2 := clipQ x1 (1/100) (99/100)
  let progress : ℚ := (s.iteration : ℚ) / (s.config.max_iterations : ℚ)
  let base_w := s.config.w_max - (s.config.w_max - s.config.w_min) * progress
  (base_w * (1 + (1/2) * (x2 - 1/2)), { s with chaos_value := x2 })

/-- Python's `min(particles, key=fitness)`: first particle attaining the
minimum fitness (`none` on an empty swarm, where Python raises). -/
def pymin_particle (ps : List Particle) : Option Particle :=
  match ps with
  | [] => none
  | p :: rest =>
    some (rest.foldl (fun best q => if q.fitness < best.fitness then q else best) p)

/-- Model of `HACOPSOEngine._update_global_best`.  The Python checks
`self.global_best is None`; `global_best` and `global_best_obj` are always
assigned together, and the mixed state (route set, objectives unset) would
raise in `np.dot`, so it is left unchanged here. -/
def HACOPSOEngine.update_global_best (s : HACOPSOEngine) : HACOPSOEngine :=
  match pymin_particle s.particles with
  | none => s
  | some best =>
    match s.global_best, s.global_best_obj with
    | none, _ =>
      { s with global_best := some best.personal_best,
               global_best_obj := some best.personal_best_obj,
               stagnation_count := 0 }
    | some _, some gbo =>
      if best.fitness < dotQ s.weights gbo then
        { s with global_best := some best.personal_best,
                 global_best_obj := some best.personal_best_obj,
                 stagnation_count := 0 }
      else { s with stagnation_count := s.stagnation_count + 1 }
    | some _, none => s

/-- Tail of `iterate`'s per-particle loop body, from the re-evaluation of
the updated position onward: recompute objectives, violations (the
constraint check reads the wall clock), penalty and fitness, update the
personal best on weighted-sum improvement, and insert into the archive
unless a land violation is present. -/
def HACOPSOEngine.particle_finish (deps : EngineDeps) (weights : List ℚ)
    (archive : ParetoArchiveManager Route (List ℚ)) (p : Particle)
    (pos3 velocity2 : Route) (rng2 : Rng) (clk : Clock) :
    Particle × ParetoArchiveManager Route (List ℚ) × Rng × Clock :=
  let obj_arr := deps.evaluate_obj pos3 p.speeds
  let tc := clk.tick
  let violations := deps.check_route_deps pos3 p.speeds tc.1
  let penalty := calculate_penalty violations
  let fitness := dotQ weights obj_arr + penalty
  let pbest :=
    if fitness < dotQ weights p.personal_best_obj then (pos3, obj_arr)
    else (p.personal_best, p.personal_best_obj)
  let archive2 :=
    if violations.any (fun v => v.constraint_type == "land") then archive
    else (archive.add pos3 obj_arr p.speeds).2
  (⟨pos3, velocity2, p.speeds, pbest.1, pbest.2, fitness⟩, archive2, rng2, tc.2)

/-- The body of `HACOPSOEngine.iterate`'s per-particle loop: velocity and
position update with endpoint re-pinning, re-evaluation, personal-best
update, and guarded archive insertion.  Threads the archive (mutated
in-place by the Python loop) and the RNG. -/
def HACOPSOEngine.particle_step (deps : EngineDeps) (s : HACOPSOEngine)
    (bounds : (ℚ × ℚ) × (ℚ × ℚ)) (inertia : ℚ)
    (archive : ParetoArchiveManager Route (List ℚ)) (p : Particle)
    (rng : Rng) (clk : Clock) :
    Particle × ParetoArchiveManager Route (List ℚ) × Rng × Clock :=
  let n := p.position.length
  let pr1 := rng.randomPairs n
  let pr2 := pr1.2.randomPairs n
  let r1 := pr1.1
  let r2 := pr2.1
  let leader : Route :=
    if 0 < archive.size then
      match archive.get_compromise s.weights with
      | some x => x.1
      | none => p.personal_best
    else
      match s.global_best with
      | some g => g
      | none => p.personal_best
  let velocity1 := (List.range n).map (fun i =>
    let pos := p.position.getD i (0, 0)
    let pb := p.personal_best.getD i (0, 0)
    let ld := leader.getD i (0, 0)
    let rr1 := r1.getD i (0, 0)
    let rr2 := r2.getD i (0, 0)
    let v := p.velocity.getD i (0, 0)
    (inertia * v.1 + s.config.c1 * rr1.1 * (pb.1 - pos.1) +
       s.config.c2 * rr2.1 * (ld.1 - pos.1),
     inertia * v.2 + s.config.c1 * rr1.2 * (pb.2 - pos.2) +
       s.config.c2 * rr2.2 * (ld.2 - pos.2)))
  let velocity2 := velocity1.map (fun v =>
    (clipQ v.1 (-s.config.v_max_lat) s.config.v_max_lat,
     clipQ v.2 (-s.config.v_max_lat) s.config.v_max_lat))
  let pos1 := (List.range n).map (fun i =>
    let x := p.position.getD i (0, 0)
    if 1 ≤ i ∧ i + 1 < n then
      let v := velocity2.getD i (0, 0)
      (x.1 + v.1, x.2 + v.2)
    else x)
  let pos2 := pos1.map (fun x =>
    (clipQ x.1 bounds.1.1 bounds.1.2, clipQ x.2 bounds.2.1 bounds.2.2))
  let pos3 := (pos2.set 0 s.origin).set (n - 1) s.destination
  HACOPSOEngine.particle_finish deps s.weights archive p pos3 velocity2 pr2.2 clk

/-- Model of `iterate`'s per-particle loop over the whole swarm, in order. -/
def HACOPSOEngine.particle_loop (deps : EngineDeps) (s : HACOPSOEngine)
    (bounds : (ℚ × ℚ) × (ℚ × ℚ)) (inertia : ℚ) :
    List Particle → ParetoArchiveManager Route (List ℚ) → Rng → Clock →
      List Particle × ParetoArchiveManager Route (List ℚ) × Rng × Clock
  | [], archive, rng, clk => ([], archive, rng, clk)
  | p :: rest, archive, rng, clk =>
    let one := HACOPSOEngine.particle_step deps s bounds inertia archive p rng clk
    let more := HACOPSOEngine.particle_loop deps s bounds inertia rest
      one.2.1 one.2.2.1 one.2.2.2
    (one.1 :: more.1, more.2.1, more.2.2.1, more.2.2.2)

/-- The opposition-based replacement applied per particle when triggered:
keep the opposition image when its fitness is strictly better (position and
fitness replaced; velocity, speeds and personal best untouched).  Its
constraint check reads the wall clock. -/
def HACOPSOEngine.opposition_step (deps : EngineDeps) (weights : List ℚ)
    (bounds : (ℚ × ℚ) × (ℚ × ℚ)) (p : Particle) (clk : Clock) :
    Particle × Clock :=
  let opp := opposition_route bounds p.position
  let opp_obj := deps.evaluate_obj opp p.speeds
  let tc := clk.tick
  let opp_fit := dotQ weights opp_obj +
    calculate_penalty (deps.check_route_deps opp p.speeds tc.1)
  (if opp_fit < p.fitness then { p with position := opp, fitness := opp_fit }
   else p, tc.2)

/-- The opposition replacement applied to the whole swarm in order,
threading the wall clock through the per-particle constraint checks. -/
def HACOPSOEngine.opposition_loop (deps : EngineDeps) (weights : List ℚ)
    (bounds : (ℚ × ℚ) × (ℚ × ℚ)) :
    List Particle → Clock → List Particle × Clock
  | [], clk => ([], clk)
  | p :: rest, clk =>
    let one := HACOPSOEngine.opposition_step deps weights bounds p clk
    let more := HACOPSOEngine.opposition_loop deps weights bounds rest one.2
    (one.1 :: more.1, more.2)

/-- Model of `HACOPSOEngine.iterate`.  The opposition draw `np.random.random()` is
consumed only when the stagnation test passes (Python's short-circuit
`and`); `best_fit = min(p.fitness ...)` falls back to 0 on an empty swarm,
where Python would raise. -/
def HACOPSOEngine.iterate (deps : EngineDeps) (s : HACOPSOEngine)
    (rng : Rng) (clk : Clock) : HACOPSOEngine × Rng × Clock :=
  let bounds := s.get_bounds
  let iw := s.chaotic_inertia_weight deps
  let s1 := iw.2
  let loop := HACOPSOEngine.particle_loop deps s1 bounds iw.1 s1.particles
    s1.archive rng clk
  let s2 := { s1 with particles := loop.1, archive := loop.2.1 }
  let s3 := s2.update_global_best
  let opp :=
    if s3.config.stagnation_limit / 2 ≤ s3.stagnation_count then
      let d := loop.2.2.1.next
      if d.1 < s3.config.opposition_rate then
        let ol := HACOPSOEngine.opposition_loop deps s3.weights bounds
          s3.particles loop.2.2.2
        ({ s3 with particles := ol.1 }, d.2, ol.2)
      else (s3, d.2, loop.2.2.2)
    else (s3, loop.2.2.1, loop.2.2.2)
  let s4 := opp.1
  let best_fit := match pymin_particle s4.particles with
    | some b => b.fitness
    | none => 0
  ({ s4 with convergence_history := s4.convergence_history ++ [best_fit],
             iteration := s4.iteration + 1 }, opp.2)

/-- Model of `n` successive calls to `iterate`. -/
def HACOPSOEngine.iterateN (deps : EngineDeps) : ℕ →
    HACOPSOEngine × Rng × Clock → HACOPSOEngine × Rng × Clock
  | 0, sr => sr
  | n + 1, sr => HACOPSOEngine.iterateN deps n
      (HACOPSOEngine.iterate deps sr.1 sr.2.1 sr.2.2)

/-- The seeding prefix of `initialize_swarm`: particles from
`warm_start[: swarm_size // 4]`. -/
def HACOPSOEngine.seed_particles (deps : EngineDeps) (s : HACOPSOEngine) :
    List Route → List Particle → Rng → Clock → List Particle × Rng × Clock
  | [], acc, rng, clk => (acc, rng, clk)
  | route :: rest, acc, rng, clk =>
    let pr := s.create_particle deps route rng clk
    HACOPSOEngine.seed_particles deps s rest (acc ++ [pr.1]) pr.2.1 pr.2.2

/-- The `while len(particles) < swarm_size` loop of `initialize_swarm`:
random route, its particle, and (if a slot remains) the particle of its
opposition image.  `fuel` bounds the iterations (each adds at least one
particle, so `swarm_size` passes suffice). -/
def HACOPSOEngine.fill_swarm (deps : EngineDeps) (s : HACOPSOEngine)
    (bounds : (ℚ × ℚ) × (ℚ × ℚ)) :
    ℕ → List Particle → Rng → Clock → List Particle × Rng × Clock
  | 0, ps, rng, clk => (ps, rng, clk)
  | fuel + 1, ps, rng, clk =>
    if s.config.swarm_size ≤ ps.length then (ps, rng, clk)
    else
      let pr := s.generate_random_route bounds rng
      let p1 := s.create_particle deps pr.1 pr.2 clk
      let ps1 := ps ++ [p1.1]
      if ps1.length < s.config.swarm_size then
        let p2 := s.create_particle deps (opposition_route bounds pr.1)
          p1.2.1 p1.2.2
        HACOPSOEngine.fill_swarm deps s bounds fuel (ps1 ++ [p2.1]) p2.2.1 p2.2.2
      else HACOPSOEngine.fill_swarm deps s bounds fuel ps1 p1.2.1 p1.2.2

/-- Model of `HACOPSOEngine.initialize_swarm` (Python's `if warm_start:` treats an
empty list as absent). -/
def HACOPSOEngine.initialize_swarm (deps : EngineDeps) (s : HACOPSOEngine)
    (warm_start : Option (List Route)) (rng : Rng) (clk : Clock) :
    HACOPSOEngine × Rng × Clock :=
  let bounds := s.get_bounds
  let seeded := match warm_start with
    | none => (([] : List Particle), rng, clk)
    | some ws =>
      if ws.isEmpty then (([] : List Particle), rng, clk)
      else HACOPSOEngine.seed_particles deps s
        (ws.take (s.config.swarm_size / 4)) [] rng clk
  let filled := HACOPSOEngine.fill_swarm deps s bounds s.config.swarm_size
    seeded.1 seeded.2.1 seeded.2.2
  (({ s with particles := filled.1 }).update_global_best, filled.2)

/-- The `for _ in range(max_iterations)` loop of `optimize` with its
stagnation break (checked after each iteration). -/
def HACOPSOEngine.optimize_loop (deps : EngineDeps) :
    ℕ → HACOPSOEngine → Rng → Clock → HACOPSOEngine × Rng × Clock
  | 0, s, rng, clk => (s, rng, clk)
  | k + 1, s, rng, clk =>
    let one := s.iterate deps rng clk
    if one.1.config.stagnation_limit ≤ one.1.stagnation_count then one
    else HACOPSOEngine.optimize_loop deps k one.1 one.2.1 one.2.2

/-- Model of `HACOPSOEngine.optimize` (without the read-only progress callback):
initialize the swarm, then iterate up to `max_iterations` with the
stagnation break.  The returned engine state carries `iteration`,
`archive` and `convergence_history`, from which the Python result dict is
assembled. -/
def HACOPSOEngine.optimize (deps : EngineDeps) (s : HACOPSOEngine)
    (warm_start : Option (List Route)) (rng : Rng) (clk : Clock) :
    HACOPSOEngine × Rng × Clock :=
  let ini := s.initialize_swarm deps warm_start rng clk
  HACOPSOEngine.optimize_loop deps ini.1.config.max_iterations ini.1
    ini.2.1 ini.2.2

/-- A whole run: construct the engine (`__init__`, which draws the chaos
seed) and `optimize`, from a seed-determined RNG stream and the stream of
wall-clock readings the constraint checks will observe. -/
def HACOPSOEngine.run (deps : EngineDeps) (config : HACOPSOConfig)
    (origin destination : ℚ × ℚ) (weights : Option (List ℚ))
    (warm_start : Option (List Route)) (seed_stream : ℕ → ℚ)
    (clock_stream : ℕ → ℚ) : HACOPSOEngine × Rng × Clock :=
  let ini := HACOPSOEngine.init config origin destination weights
    ⟨seed_stream, 0⟩
  HACOPSOEngine.optimize deps ini.1 warm_start ini.2 ⟨clock_stream, 0⟩

/-- A particle whose route endpoints hold exactly the origin and the
destination. -/
def Pinned (o d : ℚ × ℚ) (p : Particle) : Prop :=
  2 ≤ p.position.length ∧
  p.position.getD 0 (0, 0) = o ∧
  p.position.getD (p.position.length - 1) (0, 0) = d

/-- Trivial engine dependencies used by concrete witnesses (the constraint
check returns no violations at any wall-clock reading). -/
def wDeps : EngineDeps :=
  ⟨fun _ _ => [1, 1, 1, 1, 1], fun _ _ _ => [], 10, 5, 25, id⟩

/-- Small concrete configuration used by concrete witnesses. -/
def wCfg : HACOPSOConfig :=
  ⟨2, 3, 5, 9/10, 2/5, 2, 2, 2, 2, 3/10, .logistic, 2, 20⟩

/-- Concrete particle used by concrete witnesses. -/
def wParticle : Particle :=
  ⟨[(0, 0), (2, 2), (1, 1)], [(0, 0), (0, 0), (0, 0)], [10, 10],
   [(0, 0), (2, 2), (1, 1)], [1, 1, 1, 1, 1], 5⟩

/-- Concrete engine state used by concrete witnesses. -/
def wEngine : HACOPSOEngine :=
  ⟨wCfg, (0, 0), (1, 1), [1, 1, 1, 1, 1], ⟨5, []⟩, [wParticle],
   none, none, 1/2, 0, 0, []⟩

/-- Constant-zero RNG stream used by concrete witnesses. -/
def wRng : Rng := ⟨fun _ => 0, 0⟩

/-- Constant-zero wall-clock stream used by concrete witnesses. -/
def wClock : Clock := ⟨fun _ => 0, 0⟩

/-- Two-entry overfull archive used by the truncation witness. -/
def wArchive4 : ParetoArchiveManager ℕ ℕ :=
  ⟨1, [⟨1, [0, 1], 1⟩, ⟨2, [1, 0], 2⟩]⟩

/-- One-entry archive below capacity used by the duplicate-insertion
witness. -/
def wArchive9 : ParetoArchiveManager ℕ ℕ := ⟨3, [⟨1, [5], 1⟩]⟩

/-- A frozen but time-sensitive environment: one storm zone covering the
whole area with risk 1 and `valid_until = 100`.  `OceanGrid.get_storm_risk`
skips a zone once the queried time exceeds its `valid_until`, so the risk
is 1 at readings up to 100 and 0 afterwards. -/
def stormHandler : ConstraintHandler :=
  ⟨⟨fun _ _ => false, fun _ _ => none,
    fun _ _ t => if 100 < t then 0 else 1, fun _ _ => 0⟩, 15, 5, 25, none⟩

/-- Engine dependencies over `stormHandler`: the constraint check is the
engine's `check_route(route, speeds)` call (no `time`, no fuel), evaluated
at the wall-clock reading `check_route` substitutes for the missing
`time`. -/
def cexClockDeps : EngineDeps :=
  ⟨fun _ _ => [1, 1, 1, 1, 1],
   fun r sp t => check_route stormHandler r (some sp) none none t,
   10, 5, 25, id⟩

/-- One-particle, one-iteration configuration for the wall-clock
counterexample. -/
def cexCfg : HACOPSOConfig :=
  ⟨1, 1, 5, 9/10, 2/5, 2, 2, 2, 2, 3/10, .logistic, 1, 20⟩

/-- Fault-free objective function used by the totality witness. -/
def wObjective : ObjectiveFunction :=
  ⟨⟨10, 5, fun _ _ => .fin 1⟩,
   ⟨fun _ _ _ => .ok (.fin 1), fun _ _ _ => .ok (.fin 0, .fin 0),
    fun _ _ _ => .ok (.fin 0), fun _ _ => .ok (.fin 0),
    fun _ _ _ => .ok (.fin 0)⟩,
   ⟨fun _ _ _ _ => .fin 1, fun _ _ _ _ => .fin 0, fun _ _ _ => .fin 0⟩, 0⟩

theorem all_zip_le_iff (a b : List ℚ) :
    ((a.zip b).all fun p => decide (p.1 ≤ p.2)) = true ↔
      ∀ i (h1 : i < a.length) (h2 : i < b.length), a[i] ≤ b[i] := by
  induction a generalizing b with
  | nil => simp
  | cons x a ih =>
    cases b with
    | nil => simp
    | cons y b =>
      simp only [List.zip_cons_cons, List.all_cons, Bool.and_eq_true, decide_eq_true_eq, ih]
      constructor
      · rintro ⟨hxy, h⟩ i h1 h2
        cases i with
        | zero => simpa using hxy
        | succ j =>
          simpa using h j (by simpa using h1) (by simpa using h2)
      · intro h
        refine ⟨by simpa using h 0 (by simp) (by simp), ?_⟩
        intro i h1 h2
        simpa using h (i + 1) (by simpa using h1) (by simpa using h2)

theorem any_zip_lt_iff (a b : List ℚ) :
    ((a.zip b).any fun p => decide (p.1 < p.2)) = true ↔
      ∃ i, ∃ (h1 : i < a.length) (h2 : i < b.length), a[i] < b[i] := by
  induction a generalizing b with
  | nil => simp
  | cons x a ih =>
    cases b with
    | nil => simp
    | cons y b =>
      simp only [List.zip_cons_cons, List.any_cons, Bool.or_eq_true, decide_eq_true_eq, ih]
      constructor
      · rintro (hxy | ⟨j, hj1, hj2, hj⟩)
        · exact ⟨0, by simp, by simp, by simpa using hxy⟩
        · exact ⟨j + 1, by simpa using hj1, by simpa using hj2, by simpa using hj⟩
      · rintro ⟨i, h1, h2, h⟩
        cases i with
        | zero => exact Or.inl (by simpa using h)
        | succ j =>
          exact Or.inr ⟨j, by simpa using h1, by simpa using h2, by simpa using h⟩

/-- Reflexive application never dominates. -/
theorem dominates_self_false (a : ObjVec) : dominates a a = false := by
  rw [Bool.eq_false_iff]
  intro h
  rcases Bool.and_eq_true _ _ |>.mp h with ⟨-, hany⟩
  rcases (any_zip_lt_iff a a).mp hany with ⟨i, h1, h2, hlt⟩
  exact lt_irrefl _ hlt

/-- Mutual domination is impossible. -/
theorem dominates_asymm (a b : ObjVec) :
    ¬(dominates a b = true ∧ dominates b a = true) := by
  rintro ⟨hab, hba⟩
  rcases Bool.and_eq_true _ _ |>.mp hab with ⟨hall, -⟩
  rcases Bool.and_eq_true _ _ |>.mp hba with ⟨-, hany⟩
  rcases (any_zip_lt_iff b a).mp hany with ⟨i, h1, h2, hlt⟩
  exact absurd ((all_zip_le_iff a b).mp hall i h2 h1) (not_le.mpr hlt)

/-- Domination is transitive on equal-length vectors. -/
theorem dominates_trans (a b c : ObjVec) (hab : a.length = b.length)
    (hbc : b.length = c.length) (h1 : dominates a b = true)
    (h2 : dominates b c = true) : dominates a c = true := by
  rcases Bool.and_eq_true _ _ |>.mp h1 with ⟨hall1, hany1⟩
  rcases Bool.and_eq_true _ _ |>.mp h2 with ⟨hall2, -⟩
  rw [dominates, Bool.and_eq_true]
  constructor
  · rw [all_zip_le_iff]
    intro i hi1 hi2
    exact le_trans ((all_zip_le_iff a b).mp hall1 i hi1 (hab ▸ hi1))
      ((all_zip_le_iff b c).mp hall2 i (hab ▸ hi1) hi2)
  · rw [any_zip_lt_iff]
    rcases (any_zip_lt_iff a b).mp hany1 with ⟨i, hi1, hi2, hlt⟩
    exact ⟨i, hi1, hbc ▸ hi2, lt_of_lt_of_le hlt
      ((all_zip_le_iff b c).mp hall2 i hi2 (hbc ▸ hi2))⟩

theorem entryNonDom_symm {σ μ : Type} {e1 e2 : ArchiveEntry σ μ}
    (h : EntryNonDom e1 e2) : EntryNonDom e2 e1 :=
  ⟨h.2, h.1⟩

theorem mem_selectIdx {α : Type} {l : List α} {idx : List ℕ} {a : α}
    (h : a ∈ selectIdx l idx) : ∃ i ∈ idx, l.get? i = some a := by
  simpa [selectIdx] using List.mem_filterMap.mp h

theorem pairwise_getElem_of_ne {α : Type} {R : α → α → Prop}
    (hsym : ∀ a b, R a b → R b a) {l : List α} (hl : l.Pairwise R)
    {i j : ℕ} (hi : i < l.length) (hj : j < l.length) (hne : i ≠ j) :
    R l[i] l[j] := by
  rcases Nat.lt_or_ge i j with h | h
  · exact List.pairwise_iff_getElem.mp hl i j hi hj h
  · exact hsym _ _ (List.pairwise_iff_getElem.mp hl j i hj hi
      (lt_of_le_of_ne h (Ne.symm hne)))

theorem pairwise_selectIdx {α : Type} {R : α → α → Prop}
    (hsym : ∀ a b, R a b → R b a) {l : List α} (hl : l.Pairwise R) :
    ∀ {idx : List ℕ}, idx.Nodup → (selectIdx l idx).Pairwise R := by
  intro idx
  induction idx with
  | nil => intro; simp [selectIdx]
  | cons i rest ih =>
    intro hnd
    rcases List.nodup_cons.mp hnd with ⟨hnotin, hnd'⟩
    show (List.filterMap (fun i => l.get? i) (i :: rest)).Pairwise R
    rw [List.filterMap_cons]
    rcases hget : l.get? i with - | a
    · exact ih hnd'
    · refine List.pairwise_cons.mpr ⟨?_, ih hnd'⟩
      intro b hb
      rcases mem_selectIdx hb with ⟨j, hjmem, hgetj⟩
      rcases List.get?_eq_some.mp hget with ⟨hi, rfl⟩
      rcases List.get?_eq_some.mp hgetj with ⟨hj, rfl⟩
      exact pairwise_getElem_of_ne hsym hl hi hj
        (fun hij => hnotin (hij ▸ hjmem))

theorem length_selectIdx_le {α : Type} (l : List α) (idx : List ℕ) :
    (selectIdx l idx).length ≤ idx.length :=
  List.length_filterMap_le _ _

theorem argsortDescTop_perm (vals : List (WithTop ℚ)) :
    (argsortDescTop vals).Perm (List.range vals.length) :=
  List.perm_insertionSort _ _

theorem argsortDescTop_nodup (vals : List (WithTop ℚ)) :
    (argsortDescTop vals).Nodup :=
  ((argsortDescTop_perm vals).nodup_iff).mpr (List.nodup_range _)

theorem argsortDescTop_sorted (vals : List (WithTop ℚ)) :
    (argsortDescTop vals).Pairwise (argRelDesc vals) :=
  List.sorted_insertionSort _ _

theorem mem_argsortDescTop {vals : List (WithTop ℚ)} {i : ℕ} :
    i ∈ argsortDescTop vals ↔ i < vals.length := by
  rw [(argsortDescTop_perm vals).mem_iff, List.mem_range]

theorem any_dominates_eq_false {σ μ : Type} {l : List (ArchiveEntry σ μ)}
    {obj : ObjVec} (h : l.any (fun e => dominates e.objective obj) = false) :
    ∀ e ∈ l, dominates e.objective obj = false := by
  intro e he
  have hfa : ∀ x ∈ l, dominates x.objective obj = false := by
    have := congrArg (fun b => !b) h
    simpa [List.not_any_eq_all_not] using this
  exact hfa e he

/-- C1 key step, truncation part: `_truncate` preserves the antichain and
bounds the size by `max_size`. -/
theorem truncate_pairwise_bound {σ μ : Type} (A : ParetoArchiveManager σ μ)
    (h : PairwiseNonDom A.entries) :
    PairwiseNonDom A.truncate.entries ∧
      A.truncate.entries.length ≤ A.max_size := by
  unfold ParetoArchiveManager.truncate ParetoArchiveManager.truncate_with
  split
  · exact ⟨h, by assumption⟩
  · constructor
    · exact pairwise_selectIdx (fun _ _ => entryNonDom_symm) h
        ((argsortDescTop_nodup _).sublist (List.take_sublist _ _))
    · calc (selectIdx A.entries _).length
          ≤ ((argsortDescTop (crowding_distance (A.entries.map (·.objective)))).take
              A.max_size).length := length_selectIdx_le _ _
        _ ≤ A.max_size := by rw [List.length_take]; exact min_le_left _ _

theorem add_eq_of_not_dominated {σ μ : Type} (A : ParetoArchiveManager σ μ)
    (sol : σ) (obj : ObjVec) (m : μ)
    (h : A.entries.any (fun e => dominates e.objective obj) = false) :
    A.add sol obj m =
      (true,
        if A.max_size <
            (A.entries.filter (fun e => !(dominates obj e.objective)) ++
              [(⟨sol, obj, m⟩ : ArchiveEntry σ μ)]).length
        then ({ A with entries :=
          A.entries.filter (fun e => !(dominates obj e.objective)) ++
            [(⟨sol, obj, m⟩ : ArchiveEntry σ μ)] } : ParetoArchiveManager σ μ).truncate
        else { A with entries :=
          A.entries.filter (fun e => !(dominates obj e.objective)) ++
            [(⟨sol, obj, m⟩ : ArchiveEntry σ μ)] }) := by
  simp only [ParetoArchiveManager.add, h, Bool.false_eq_true, if_false]

/-- C1: a call to `ParetoArchiveManager.add` preserves the strict-antichain
invariant and the size bound `|archive| ≤ max_size`. -/
theorem archive_add_antichain_bound {σ μ : Type} (A : ParetoArchiveManager σ μ)
    (sol : σ) (obj : ObjVec) (m : μ)
    (h1 : PairwiseNonDom A.entries) (h2 : A.entries.length ≤ A.max_size) :
    PairwiseNonDom (A.add sol obj m).2.entries ∧
      (A.add sol obj m).2.entries.length ≤ A.max_size := by
  by_cases hrej : A.entries.any (fun e => dominates e.objective obj) = true
  · simp only [ParetoArchiveManager.add, hrej, if_true]
    exact ⟨h1, h2⟩
  · have hrejf : A.entries.any (fun e => dominates e.objective obj) = false :=
      Bool.eq_false_iff.mpr hrej
    rw [add_eq_of_not_dominated A sol obj m hrejf]
    have hpw1 : PairwiseNonDom
        (A.entries.filter (fun e => !(dominates obj e.objective)) ++
          [(⟨sol, obj, m⟩ : ArchiveEntry σ μ)]) := by
      rw [PairwiseNonDom, List.pairwise_append]
      refine ⟨List.Pairwise.sublist (List.filter_sublist _) h1,
        List.pairwise_singleton _ _, ?_⟩
      intro e he b hb
      rcases List.mem_singleton.mp hb with rfl
      rcases List.mem_filter.mp he with ⟨hmem, hfilt⟩
      exact ⟨any_dominates_eq_false hrejf e hmem, by simpa using hfilt⟩
    by_cases hsz : A.max_size <
        (A.entries.filter (fun e => !(dominates obj e.objective)) ++
          [(⟨sol, obj, m⟩ : ArchiveEntry σ μ)]).length
    · rw [if_pos hsz]
      exact truncate_pairwise_bound _ hpw1
    · rw [if_neg hsz]
      exact ⟨hpw1, Nat.le_of_not_lt hsz⟩

theorem foldl_length_eq {α β : Type} (f : List β → α → List β)
    (hf : ∀ d a, (f d a).length = d.length) (l : List α) :
    ∀ init : List β, (l.foldl f init).length = init.length := by
  induction l with
  | nil => intro init; rfl
  | cons x xs ih => intro init; rw [List.foldl_cons, ih, hf]

theorem crowding_distance_length (front : List ObjVec) :
    (crowding_distance front).length = front.length := by
  unfold crowding_distance
  simp only []
  split
  · simp
  · rw [foldl_length_eq, List.length_replicate]
    intro d m
    dsimp only
    split
    · simp
    · rw [foldl_length_eq]
      · simp
      · intro d' i
        simp

theorem selectIdx_length_eq {α : Type} (l : List α) :
    ∀ idx : List ℕ, (∀ i ∈ idx, i < l.length) →
      (selectIdx l idx).length = idx.length := by
  intro idx
  induction idx with
  | nil => intro; rfl
  | cons i rest ih =>
    intro hvalid
    show (List.filterMap (fun i => l.get? i) (i :: rest)).length = _
    rw [List.filterMap_cons]
    rcases hget : l.get? i with - | a
    · exact absurd (hvalid i (List.mem_cons_self i rest))
        (by simpa using List.get?_eq_none.mp hget)
    · rw [List.length_cons, List.length_cons]
      exact congrArg (· + 1)
        (ih (fun j hj => hvalid j (List.mem_cons_of_mem i hj)))

/-- C4 (amended): when the archive overflows, truncation keeps exactly
`max_size` entries drawn from distinct positions, and for EVERY admissible
`np.argsort(-distances)` output (numpy's default quicksort guarantees no
particular order among tied distances) the selection is distance-maximal:
no dropped position has a strictly larger crowding distance than any kept
position.  Consequently, whenever more than `max_size` positions carry the
infinite boundary distance, some boundary position is dropped regardless of
the tie order.  The executable `truncate` is the instance of `truncate_with`
at the representative sort `argsortDescTop`, itself an admissible output. -/
theorem truncate_selection {σ μ : Type} (A : ParetoArchiveManager σ μ)
    (idx : List ℕ) (h : A.max_size < A.entries.length)
    (hidx : IsArgsortDesc (crowding_distance (A.entries.map (·.objective))) idx) :
    ((idx.take A.max_size).Nodup ∧
      (idx.take A.max_size).length = A.max_size ∧
      (∀ i ∈ idx.take A.max_size, i < A.entries.length) ∧
      (A.truncate_with idx).entries = selectIdx A.entries (idx.take A.max_size) ∧
      (A.truncate_with idx).entries.length = A.max_size) ∧
    (∀ i ∈ idx.take A.max_size, ∀ j, j < A.entries.length →
      j ∉ idx.take A.max_size →
      (crowding_distance (A.entries.map (·.objective))).getD j 0 ≤
        (crowding_distance (A.entries.map (·.objective))).getD i 0) ∧
    (A.max_size <
        ((List.range A.entries.length).filter (fun j =>
          decide ((crowding_distance (A.entries.map (·.objective))).getD j 0 = ⊤))).length →
      ∃ j, j < A.entries.length ∧
        (crowding_distance (A.entries.map (·.objective))).getD j 0 = ⊤ ∧
        j ∉ idx.take A.max_size) ∧
    (A.truncate = A.truncate_with
        (argsortDescTop (crowding_distance (A.entries.map (·.objective)))) ∧
      IsArgsortDesc (crowding_distance (A.entries.map (·.objective)))
        (argsortDescTop (crowding_distance (A.entries.map (·.objective))))) := by
  obtain ⟨hperm, hsorted⟩ := hidx
  have hdsl : (crowding_distance (A.entries.map (·.objective))).length =
      A.entries.length := by
    rw [crowding_distance_length, List.length_map]
  have hidxlen : idx.length = A.entries.length := by
    rw [hperm.length_eq, List.length_range, hdsl]
  have hnodup : idx.Nodup := hperm.nodup_iff.mpr (List.nodup_range _)
  have hmem_idx : ∀ j, j ∈ idx ↔ j < A.entries.length := by
    intro j
    rw [hperm.mem_iff, List.mem_range, hdsl]
  have htknodup : (idx.take A.max_size).Nodup :=
    hnodup.sublist (List.take_sublist _ _)
  have htklen : (idx.take A.max_size).length = A.max_size := by
    rw [List.length_take, hidxlen]
    exact Nat.min_eq_left (Nat.le_of_lt h)
  have htkmem : ∀ i ∈ idx.take A.max_size, i < A.entries.length :=
    fun i hi => (hmem_idx i).mp (List.mem_of_mem_take hi)
  have hentries : (A.truncate_with idx).entries =
      selectIdx A.entries (idx.take A.max_size) := by
    rw [ParetoArchiveManager.truncate_with, if_neg (Nat.not_le_of_lt h)]
  refine ⟨⟨htknodup, htklen, htkmem, hentries, ?_⟩, ?_, ?_, rfl, ?_⟩
  · rw [hentries, selectIdx_length_eq A.entries _ htkmem, htklen]
  · intro i hi j hj hjnot
    have hsplit := (List.take_append_drop A.max_size idx).symm
    have hpair := hsorted
    rw [hsplit, List.pairwise_append] at hpair
    have hjdrop : j ∈ idx.drop A.max_size := by
      rcases List.mem_append.mp (hsplit ▸ (hmem_idx j).mpr hj) with hc | hc
      · exact absurd hc hjnot
      · exact hc
    exact hpair.2.2 i hi j hjdrop
  · intro hmany
    by_contra hall
    push_neg at hall
    have hsub : ((List.range A.entries.length).filter (fun j =>
        decide ((crowding_distance (A.entries.map (·.objective))).getD j 0 = ⊤))) ⊆
        idx.take A.max_size := by
      intro j hjmem
      rcases List.mem_filter.mp hjmem with ⟨hjr, hjtop⟩
      exact hall j (List.mem_range.mp hjr) (of_decide_eq_true hjtop)
    have hndS : ((List.range A.entries.length).filter (fun j =>
        decide ((crowding_distance (A.entries.map (·.objective))).getD j 0 = ⊤))).Nodup :=
      (List.nodup_range _).filter _
    have := (hndS.subperm hsub).length_le
    omega
  · refine ⟨argsortDescTop_perm _, ?_⟩
    refine List.Pairwise.imp ?_ (argsortDescTop_sorted _)
    rintro i j hrel
    rcases hrel with hlt | heq
    · exact le_of_lt hlt
    · exact le_of_eq heq.1.symm

/-- C4 counterexample: with `max_size = 1` and archive `{(0,1)}`, inserting
the mutually non-dominated `(1,0)` triggers truncation; the newcomer is a
boundary point (its crowding distance in the two-point front is infinite)
yet it is dropped, so boundary entries do not always survive truncation. -/
theorem truncate_drops_boundary_cex :
    (((⟨1, [⟨1, [0, 1], 1⟩]⟩ : ParetoArchiveManager ℕ ℕ).add 2 [1, 0] 2).2.entries
        = [⟨1, [0, 1], 1⟩]) ∧
      crowding_distance [[0, 1], [1, 0]] = [⊤, ⊤] ∧
      dominates [0, 1] [1, 0] = false ∧ dominates [1, 0] [0, 1] = false := by
  refine ⟨by decide, by decide, by decide, by decide⟩

theorem mem_entries_nondom {σ μ : Type} {A : ParetoArchiveManager σ μ}
    {obj : ObjVec} (h1 : PairwiseNonDom A.entries)
    (hdup : obj ∈ A.entries.map (·.objective)) :
    ∀ e ∈ A.entries, dominates e.objective obj = false ∧
      dominates obj e.objective = false := by
  rcases List.mem_map.mp hdup with ⟨e0, he0, hobj⟩
  rcases List.mem_iff_getElem.mp he0 with ⟨k, hk, hek⟩
  intro e he
  rcases List.mem_iff_getElem.mp he with ⟨a, ha, hea⟩
  by_cases hak : a = k
  · subst hak
    have : e = e0 := by rw [← hea, hek]
    subst this
    rw [← hobj]
    exact ⟨dominates_self_false _, dominates_self_false _⟩
  · have hpw := pairwise_getElem_of_ne (fun _ _ => entryNonDom_symm) h1 ha hk hak
    rw [hea, hek] at hpw
    rw [← hobj]
    exact hpw

/-- C9 (amended): below capacity, adding an objective vector componentwise
equal to an existing entry's returns `True`, keeps every existing entry and
appends the newcomer — the archive holds duplicate objective vectors. -/
theorem add_duplicate_below_capacity {σ μ : Type} (A : ParetoArchiveManager σ μ)
    (sol : σ) (obj : ObjVec) (m : μ)
    (h1 : PairwiseNonDom A.entries) (hdup : obj ∈ A.entries.map (·.objective))
    (hcap : A.entries.length < A.max_size) :
    A.add sol obj m =
      (true, { A with entries := A.entries ++ [⟨sol, obj, m⟩] }) := by
  have hfacts := mem_entries_nondom h1 hdup
  have hrejf : A.entries.any (fun e => dominates e.objective obj) = false := by
    rw [Bool.eq_false_iff]
    intro hany
    rcases List.any_eq_true.mp hany with ⟨e, he, hd⟩
    rw [(hfacts e he).1] at hd
    exact Bool.false_ne_true hd
  have hfilt : A.entries.filter (fun e => !(dominates obj e.objective)) =
      A.entries := by
    rw [List.filter_eq_self]
    intro e he
    rw [(hfacts e he).2]
    rfl
  rw [add_eq_of_not_dominated A sol obj m hrejf, hfilt,
    if_neg (by rw [List.length_append, List.length_singleton]; omega)]

/-- C9 counterexample: at capacity (`max_size = 1`, one entry with objective
`[5]`), adding a duplicate `[5]` still returns `True` but truncation then
drops the newcomer, so the final archive does not hold the duplicate pair. -/
theorem add_duplicate_at_capacity_cex :
    ((⟨1, [⟨1, [5], 1⟩]⟩ : ParetoArchiveManager ℕ ℕ).add 2 [5] 2)
      = (true, ⟨1, [⟨1, [5], 1⟩]⟩) := by decide

theorem repairInvariant_refl (oc : OceanQueries) (r : Route) :
    RepairInvariant oc r r :=
  ⟨rfl, rfl, rfl, fun _ => Or.inl rfl⟩

theorem repairInvariant_trans {oc : OceanQueries} {r0 r1 r2 : Route}
    (h1 : RepairInvariant oc r0 r1) (h2 : RepairInvariant oc r1 r2) :
    RepairInvariant oc r0 r2 := by
  obtain ⟨hl1, h01, he1, hw1⟩ := h1
  obtain ⟨hl2, h02, he2, hw2⟩ := h2
  refine ⟨hl2.trans hl1, h02.trans h01, ?_, ?_⟩
  · rw [hl1] at he2
    exact he2.trans he1
  · intro i
    rcases hw2 i with hsame | hwater
    · rcases hw1 i with hsame1 | hwater1
      · exact Or.inl (hsame.trans hsame1)
      · rw [hsame]
        exact Or.inr hwater1
    · exact Or.inr hwater

theorem getD_set_ne {α : Type} (l : List α) (i j : ℕ) (a d : α) (h : i ≠ j) :
    (l.set i a).getD j d = l.getD j d := by
  rw [List.getD_eq_getElem?_getD, List.getD_eq_getElem?_getD,
    List.getElem?_set_ne h]

theorem repair_fix_one_invariant (oc : OceanQueries) (r : Route)
    (v : ConstraintViolation) : RepairInvariant oc r (repair_fix_one oc r v) := by
  unfold repair_fix_one
  rcases v.waypoint_index with - | idx
  · exact repairInvariant_refl oc r
  · dsimp only
    split
    · exact repairInvariant_refl oc r
    · rename_i hidx
      push_neg at hidx
      rcases hfind : (perturb_candidates (r.getD idx (0, 0)).1
          (r.getD idx (0, 0)).2).find? (fun c => !(oc.is_land c.1 c.2)) with - | c
      · rw [hfind]
        exact repairInvariant_refl oc r
      · rw [hfind]
        refine ⟨List.length_set r idx c, getD_set_ne r idx 0 c (0, 0) hidx.1,
          getD_set_ne r idx (r.length - 1) c (0, 0) hidx.2, ?_⟩
        intro i
        by_cases hii : idx = i
        · subst hii
          by_cases hlt : idx < r.length
          · right
            rw [List.getD_eq_getElem?_getD, List.getElem?_set_self hlt]
            have := List.find?_some hfind
            simpa using this
          · left
            show (r.set idx c).getD idx (0, 0) = r.getD idx (0, 0)
            rw [List.set_eq_of_length_le (Nat.le_of_not_lt hlt)]
        · exact Or.inl (getD_set_ne r idx i c (0, 0) hii)

theorem foldl_repair_fix_invariant (oc : OceanQueries)
    (vs : List ConstraintViolation) :
    ∀ r : Route, RepairInvariant oc r
      (vs.foldl (fun r v => repair_fix_one oc r v) r) := by
  induction vs with
  | nil => intro r; exact repairInvariant_refl oc r
  | cons v rest ih =>
    intro r
    rw [List.foldl_cons]
    exact repairInvariant_trans (repair_fix_one_invariant oc r v)
      (ih (repair_fix_one oc r v))

theorem repair_pass_invariant (H : ConstraintHandler) (now : ℚ) (r : Route) :
    RepairInvariant H.ocean r (repair_pass H now r).1 := by
  unfold repair_pass
  dsimp only
  split
  · exact repairInvariant_refl H.ocean r
  · exact foldl_repair_fix_invariant H.ocean _ r

theorem filter_flatMap {α β : Type} (l : List α) (f : α → List β)
    (p : β → Bool) :
    (l.flatMap f).filter p = l.flatMap (fun a => (f a).filter p) := by
  induction l with
  | nil => rfl
  | cons x xs ih =>
    rw [List.flatMap_cons, List.flatMap_cons, List.filter_append, ih]

/-- The land violations of the engine-style `check_route(route, speeds=None)`
call: exactly one `land` record per land waypoint, indexed by the waypoint's
enumeration position. -/
theorem check_route_land_filter (H : ConstraintHandler) (route : Route)
    (now : ℚ) :
    (check_route H route none none none now).filter
        (fun v => v.constraint_type == "land") =
      route.enum.flatMap (fun q =>
        if H.ocean.is_land q.2.1 q.2.2 then
          [⟨"land", some q.1, 1, "crosses land"⟩] else []) := by
  unfold check_route
  rcases hmf : H.max_fuel with - | mf <;>
  · dsimp only
    rw [List.append_nil, List.append_nil, filter_flatMap]
    refine congrArg (List.flatMap route.enum) (funext fun q => ?_)
    rw [List.filter_append, List.filter_append, List.filter_append]
    have hd : ((match H.ocean.get_depth q.2.1 q.2.2 with
        | some depth =>
          if depth < H.min_depth then
            [(⟨"depth", some q.1, pyminQ 1 ((H.min_depth - depth) / H.min_depth),
              "insufficient depth"⟩ : ConstraintViolation)]
          else []
        | none => []) : List ConstraintViolation).filter
        (fun v => v.constraint_type == "land") = [] := by
      rcases H.ocean.get_depth q.2.1 q.2.2 with - | dv
      · rfl
      · dsimp only
        split <;> rfl
    have hs : ((if 4/5 < H.ocean.get_storm_risk q.2.1 q.2.2 now then
        [(⟨"storm", some q.1, H.ocean.get_storm_risk q.2.1 q.2.2 now,
          "high storm risk"⟩ : ConstraintViolation)]
       else []) : List ConstraintViolation).filter
        (fun v => v.constraint_type == "land") = [] := by
      split <;> rfl
    have hp : ((if 7/10 < H.ocean.get_piracy_risk q.2.1 q.2.2 then
        [(⟨"piracy", some q.1, H.ocean.get_piracy_risk q.2.1 q.2.2,
          "high piracy risk"⟩ : ConstraintViolation)]
       else []) : List ConstraintViolation).filter
        (fun v => v.constraint_type == "land") = [] := by
      split <;> rfl
    rw [hd, hs, hp, List.append_nil, List.append_nil, List.append_nil]
    split <;> rfl

theorem repair_fix_one_getD_ne (oc : OceanQueries) (r : Route)
    (v : ConstraintViolation) (i : ℕ) (hne : v.waypoint_index ≠ some i) :
    (repair_fix_one oc r v).getD i (0, 0) = r.getD i (0, 0) := by
  unfold repair_fix_one
  rcases hw : v.waypoint_index with - | j
  · rfl
  · dsimp only
    have hji : j ≠ i := fun hji => hne (by rw [hw, hji])
    split
    · rfl
    · rcases hfind : (perturb_candidates (r.getD j (0, 0)).1
          (r.getD j (0, 0)).2).find? (fun c => !(oc.is_land c.1 c.2)) with - | c
      · rw [hfind]
      · rw [hfind]
        exact getD_set_ne r j i c (0, 0) hji

theorem foldl_repair_fix_getD_ne (oc : OceanQueries)
    (vs : List ConstraintViolation) (i : ℕ)
    (h : ∀ v ∈ vs, v.waypoint_index ≠ some i) :
    ∀ r : Route, (vs.foldl (fun r v => repair_fix_one oc r v) r).getD i (0, 0)
      = r.getD i (0, 0) := by
  induction vs with
  | nil => intro r; rfl
  | cons v rest ih =>
    intro r
    rw [List.foldl_cons, ih (fun w hw => h w (List.mem_cons_of_mem v hw)),
      repair_fix_one_getD_ne oc r v i (h v (List.mem_cons_self v rest))]

/-- The slot a land violation fixes, after the whole per-pass fold: the fold
applies the fix for index `i` to a route whose slot `i` and length are still
those of `r`, and later fixes leave the slot alone. -/
theorem foldl_repair_fix_split (oc : OceanQueries)
    (L1 L2 : List ConstraintViolation) (v : ConstraintViolation) (i : ℕ)
    (hv : v.waypoint_index = some i)
    (h1 : ∀ w ∈ L1, w.waypoint_index ≠ some i)
    (h2 : ∀ w ∈ L2, w.waypoint_index ≠ some i)
    (r : Route) (hilt : i < r.length) (hi0 : i ≠ 0) (hiN : i ≠ r.length - 1) :
    ((L1 ++ v :: L2).foldl (fun r v => repair_fix_one oc r v) r).getD i (0, 0)
      = ((perturb_candidates (r.getD i (0, 0)).1 (r.getD i (0, 0)).2).find?
          (fun c => !(oc.is_land c.1 c.2))).getD (r.getD i (0, 0)) := by
  rw [List.foldl_append, List.foldl_cons, foldl_repair_fix_getD_ne oc L2 i h2]
  set r1 := L1.foldl (fun r v => repair_fix_one oc r v) r with hr1
  have hinv := foldl_repair_fix_invariant oc L1 r
  rw [← hr1] at hinv
  have hlen : r1.length = r.length := hinv.1
  have hslot : r1.getD i (0, 0) = r.getD i (0, 0) :=
    foldl_repair_fix_getD_ne oc L1 i h1 r
  unfold repair_fix_one
  rw [hv]
  dsimp only
  rw [if_neg (by rw [hlen]; exact fun hc => hc.elim hi0 hiN), hslot]
  rcases hfind : (perturb_candidates (r.getD i (0, 0)).1
      (r.getD i (0, 0)).2).find? (fun c => !(oc.is_land c.1 c.2)) with - | c
  · rw [hfind, hslot, Option.getD_none]
  · rw [hfind, Option.getD_some, List.getD_eq_getElem?_getD,
      List.getElem?_set_self (by rw [hlen]; exact hilt), Option.getD_some]

/-- C5 (amended): `repair_route` makes up to `max_iterations` (default 10)
passes.  A pass collects the land-violating waypoints and replaces each
land-violating interior waypoint by the FIRST candidate of the code-ordered
displacement list `perturb_candidates` — deltas 0.1, 0.2, 0.5, 1.0 degrees,
each over the SIX directions (1,0), (-1,0), (0,1), (0,-1), (1,1), (-1,-1),
i.e. N, S, E, W, NE, SW — whose coordinate is not land, leaving the
waypoint in place when all 24 candidates are land; slots that are not
land-violating, and the origin/destination slots, are never displaced, and
a route with no land violation is returned unchanged.  Length and endpoints
are always preserved and every displaced slot holds a non-land
coordinate. -/
theorem repair_pass_break (H : ConstraintHandler) (now : ℚ) (r : Route) :
    (repair_pass H now r).2 =
      ((check_route H r none none none now).filter
        (fun v => v.constraint_type == "land")).isEmpty := by
  unfold repair_pass
  dsimp only
  split
  · rename_i hemp
    exact hemp.symm
  · rename_i hemp
    exact (Bool.eq_false_iff.mpr hemp).symm

theorem repair_route_amended (H : ConstraintHandler) (now : ℚ) (route : Route)
    (k : ℕ) :
    RepairInvariant H.ocean route (repair_route H now route k) ∧
    ((check_route H route none none none now).filter
        (fun v => v.constraint_type == "land") = [] →
      repair_route H now route k = route) ∧
    (∀ i, i < route.length → i ≠ 0 → i ≠ route.length - 1 →
      H.ocean.is_land (route.getD i (0, 0)).1 (route.getD i (0, 0)).2 = true →
      (repair_pass H now route).1.getD i (0, 0) =
        ((perturb_candidates (route.getD i (0, 0)).1
            (route.getD i (0, 0)).2).find?
          (fun c => !(H.ocean.is_land c.1 c.2))).getD (route.getD i (0, 0))) ∧
    (∀ i, i = 0 ∨ i = route.length - 1 ∨
        H.ocean.is_land (route.getD i (0, 0)).1 (route.getD i (0, 0)).2 = false →
      (repair_pass H now route).1.getD i (0, 0) = route.getD i (0, 0)) ∧
    (repair_route H now route (k + 1) =
      if ((check_route H route none none none now).filter
          (fun v => v.constraint_type == "land")).isEmpty then route
      else repair_route H now (repair_pass H now route).1 k) := by
  refine ⟨?_, ?_, ?_, ?_, ?_⟩
  · induction k generalizing route with
    | zero => exact repairInvariant_refl H.ocean route
    | succ n ih =>
      show RepairInvariant H.ocean route
        (if (repair_pass H now route).2 then route
         else repair_route H now (repair_pass H now route).1 n)
      split
      · exact repairInvariant_refl H.ocean route
      · exact repairInvariant_trans (repair_pass_invariant H now route)
          (ih (repair_pass H now route).1)
  · intro hnoland
    cases k with
    | zero => rfl
    | succ n =>
      show (if (repair_pass H now route).2 then route
        else repair_route H now (repair_pass H now route).1 n) = route
      rw [if_pos (by rw [repair_pass_break, hnoland]; rfl)]
  · intro i hilt hi0 hiN hland
    have hfl := check_route_land_filter H route now
    have hmemi : ((i : ℕ), route.getD i (0, 0)) ∈ route.enum := by
      refine List.mem_iff_getElem.mpr ⟨i, by rw [List.enum_length]; exact hilt, ?_⟩
      rw [List.getElem_enum, List.getD_eq_getElem route (0, 0) hilt]
    obtain ⟨E1, E2, hsplit⟩ := List.append_of_mem hmemi
    have hfst : route.enum.map Prod.fst = List.range route.length :=
      List.enum_map_fst route
    have hnd : (route.enum.map Prod.fst).Nodup := by
      rw [hfst]; exact List.nodup_range _
    rw [hsplit, List.map_append, List.map_cons] at hnd
    have hnotin1 : i ∉ E1.map Prod.fst := by
      intro hc
      rcases List.nodup_append.mp hnd with ⟨-, -, hdisj⟩
      exact hdisj hc (List.mem_cons_self _ _)
    have hnotin2 : i ∉ E2.map Prod.fst := by
      rcases List.nodup_append.mp hnd with ⟨-, hnd2, -⟩
      exact (List.nodup_cons.mp hnd2).1
    set g : (ℕ × (ℚ × ℚ)) → List ConstraintViolation := fun q =>
      if H.ocean.is_land q.2.1 q.2.2 then
        [⟨"land", some q.1, 1, "crosses land"⟩] else [] with hg
    have hglands : ∀ (E : List (ℕ × (ℚ × ℚ))), i ∉ E.map Prod.fst →
        ∀ w ∈ E.flatMap g, w.waypoint_index ≠ some i := by
      intro E hEnot w hw
      rcases List.mem_flatMap.mp hw with ⟨q, hq, hwq⟩
      rw [hg] at hwq
      dsimp only at hwq
      split at hwq
      · rcases List.mem_singleton.mp hwq with rfl
        intro hc
        injection hc with hc
        exact hEnot (hc ▸ List.mem_map_of_mem Prod.fst hq)
      · exact absurd hwq (List.not_mem_nil w)
    have hland_list : (check_route H route none none none now).filter
        (fun v => v.constraint_type == "land") =
        E1.flatMap g ++
          (⟨"land", some i, 1, "crosses land"⟩ : ConstraintViolation) ::
            E2.flatMap g := by
      rw [hfl, hsplit, List.flatMap_append, List.flatMap_cons]
      rw [hg]
      dsimp only
      rw [if_pos hland]
      rfl
    have hpass : (repair_pass H now route).1 =
        ((check_route H route none none none now).filter
          (fun v => v.constraint_type == "land")).foldl
          (fun r v => repair_fix_one H.ocean r v) route := by
      unfold repair_pass
      dsimp only
      split
      · rename_i hemp
        rw [hland_list] at hemp
        exact absurd hemp (by simp)
      · rfl
    rw [hpass, hland_list]
    exact foldl_repair_fix_split H.ocean (E1.flatMap g) (E2.flatMap g)
      ⟨"land", some i, 1, "crosses land"⟩ i rfl
      (hglands E1 hnotin1) (hglands E2 hnotin2) route hilt hi0 hiN
  · intro i hcase
    have hinv := repair_pass_invariant H now route
    rcases hcase with rfl | hcase
    · exact hinv.2.1
    · rcases hcase with rfl | hnotland
      · exact hinv.2.2.1
      · have hfl := check_route_land_filter H route now
        unfold repair_pass
        dsimp only
        split
        · rfl
        · rw [hfl]
          refine foldl_repair_fix_getD_ne H.ocean _ i ?_ route
          intro w hw
          rcases List.mem_flatMap.mp hw with ⟨q, hq, hwq⟩
          split at hwq
          · rename_i hqland
            rcases List.mem_singleton.mp hwq with rfl
            intro hc
            injection hc with hc
            rcases List.mem_iff_getElem.mp hq with ⟨a, ha, hqa⟩
            have hq2 : q.2 = route.getD q.1 (0, 0) := by
              have hrl : a < route.length := by simpa using ha
              rw [← hqa]
              simp only [List.getElem_enum]
              rw [List.getD_eq_getElem route (0, 0) hrl]
            rw [hq2, hc, hnotland] at hqland
            exact Bool.false_ne_true hqland
          · exact absurd hwq (List.not_mem_nil w)
  · cases hp2 : (repair_pass H now route).2 with
    | true =>
      show (if (repair_pass H now route).2 then route
        else repair_route H now (repair_pass H now route).1 k) = _
      rw [hp2, if_pos rfl, ← repair_pass_break, hp2, if_pos rfl]
    | false =>
      show (if (repair_pass H now route).2 then route
        else repair_route H now (repair_pass H now route).1 k) = _
      rw [hp2, if_neg Bool.false_ne_true, ← repair_pass_break, hp2,
        if_neg Bool.false_ne_true]

/-- C5 counterexample: the interior waypoint `(5, 5)` is on land and the
eight-compass displacement `(5 + 0.1, 5 − 0.1)` (direction `(1, −1)`, SE)
is water, so a repair trying all eight compass directions would accept it;
the code's `repair_route` tries only six directions and returns the route
with the land waypoint unrepaired. -/
theorem repair_route_eight_directions_cex :
    repair_route repairCexHandler 0 [(0, 0), (5, 5), (10, 10)] 10 =
        [(0, 0), (5, 5), (10, 10)] ∧
      repairCexHandler.ocean.is_land 5 5 = true ∧
      repairCexHandler.ocean.is_land (5 + (1/10) * 1) (5 + (1/10) * (-1)) = false := by
  with_unfolding_all decide

theorem div_ok (a b : PyFloat) (hb : ∀ q, b = .fin q → q ≠ 0) :
    ∃ v, PyFloat.div a b = .ok v := by
  cases b with
  | fin q =>
    simp only [PyFloat.div]
    rw [if_neg (hb q rfl)]
    cases a <;> exact ⟨_, rfl⟩
  | pinf => cases a <;> exact ⟨_, rfl⟩
  | ninf => cases a <;> exact ⟨_, rfl⟩
  | nan => cases a <;> exact ⟨_, rfl⟩

theorem leg_time_ok (d ve : PyFloat) : ∃ v, leg_time_of d ve = .ok v := by
  unfold leg_time_of
  split
  · rename_i hpos
    refine div_ok d ve ?_
    rintro q rfl
    intro h0
    subst h0
    simp [PyFloat.lt] at hpos
  · exact ⟨_, rfl⟩

theorem evaluate_leg_ok (F : ObjectiveFunction) (route : Route)
    (speeds : List ℚ) (acc : LegAcc) (i : ℕ) (hoc : OceanTotal F.ocean) :
    ∃ acc2, evaluate_leg F route speeds acc i = .ok acc2 := by
  obtain ⟨h1, h2, h3, h4, h5⟩ := hoc
  rw [evaluate_leg]
  rw [(h1 _ _ _).choose_spec]
  simp only [bind, Except.bind]
  rw [(h2 _ _ _).choose_spec]
  simp only [bind, Except.bind]
  rw [(h3 _ _ _).choose_spec]
  simp only [bind, Except.bind]
  rw [(h4 _ _).choose_spec]
  simp only [bind, Except.bind]
  rw [(h5 _ _ _).choose_spec]
  simp only [bind, Except.bind]
  rw [(leg_time_ok _ _).choose_spec]
  simp only [bind, Except.bind]
  rw [(div_ok _ (.fin 24) (by rintro q ⟨rfl⟩; norm_num)).choose_spec]
  simp only [bind, Except.bind]
  exact ⟨_, rfl⟩

theorem foldlM_ok {α β : Type} (f : β → α → Except EvalError β)
    (hf : ∀ b a, ∃ b2, f b a = .ok b2) (l : List α) :
    ∀ b : β, ∃ b2, l.foldlM f b = .ok b2 := by
  induction l with
  | nil => intro b; exact ⟨b, rfl⟩
  | cons x xs ih =>
    intro b
    rw [List.foldlM_cons, (hf b x).choose_spec]
    simp only [bind, Except.bind]
    exact ih _

theorem pymax_one_ne_zero (x : PyFloat) :
    ∀ q, pymaxF x (.fin 1) = .fin q → q ≠ 0 := by
  intro q hq
  cases x with
  | fin a =>
    rw [pymaxF, PyFloat.lt] at hq
    by_cases ha : a < 1
    · rw [if_pos (by simpa using ha)] at hq
      cases hq
      norm_num
    · rw [if_neg (by simpa using ha)] at hq
      cases hq
      intro h0
      exact ha (by rw [h0]; norm_num)
  | pinf => simp [pymaxF, PyFloat.lt] at hq
  | ninf =>
    rw [pymaxF] at hq
    simp only [PyFloat.lt, if_true] at hq
    cases hq
    norm_num
  | nan => simp [pymaxF, PyFloat.lt] at hq

/-- C10: with an environment whose queries all succeed, the evaluator is
total — every division it performs has a provably nonzero divisor (the
effective-speed guard assigns `+inf` instead of dividing when the speed is
not strictly positive), and routes of fewer than 2 waypoints return the
fixed degenerate tuple `(inf, inf, 1, inf, 0)` without iterating any leg. -/
theorem evaluate_total (F : ObjectiveFunction) (route : Route)
    (speeds : List ℚ) (hoc : OceanTotal F.ocean)
    (_hlen : speeds.length = route.length - 1) :
    (∃ v, evaluate F route (some speeds) = .ok v) ∧
    (∀ d ve, PyFloat.lt (.fin 0) ve = false → leg_time_of d ve = .ok .pinf) ∧
    (route.length < 2 →
      evaluate F route (some speeds) = .ok ⟨.pinf, .pinf, .fin 1, .pinf, .fin 0⟩) := by
  refine ⟨?_, ?_, ?_⟩
  · rw [evaluate.eq_def]
    split
    · exact ⟨_, rfl⟩
    · dsimp only
      rw [(foldlM_ok (fun acc i => evaluate_leg F route speeds acc i)
        (fun b a => evaluate_leg_ok F route speeds b a hoc)
        (List.range (route.length - 1)) _).choose_spec]
      simp only [bind, Except.bind]
      rw [(div_ok _ _ (pymax_one_ne_zero _)).choose_spec]
      simp only [bind, Except.bind]
      rw [(div_ok _ (.fin 10) (by rintro q ⟨rfl⟩; norm_num)).choose_spec]
      simp only [bind, Except.bind]
      exact ⟨_, rfl⟩
  · intro d ve hneg
    rw [leg_time_of, if_neg (by simp [hneg])]
  · intro hshort
    rw [evaluate.eq_def, if_pos hshort]

/-- C8 (amended): an exception raised by an ocean query during a leg
evaluation propagates out of `evaluate` — the evaluation aborts with the
error; no neutral defaults are substituted and no substitution counter is
produced. -/
theorem evaluate_propagates_ocean_fault (F : ObjectiveFunction) (route : Route)
    (speeds0 : Option (List ℚ)) (e : EvalError) (h2 : 2 ≤ route.length)
    (hres : F.ocean.get_resistance
      (((route.getD 0 (0, 0)).1 + (route.getD 1 (0, 0)).1) / 2)
      (((route.getD 0 (0, 0)).2 + (route.getD 1 (0, 0)).2) / 2)
      (.fin F.departure_time) = .error e) :
    evaluate F route speeds0 = .error e := by
  obtain ⟨m, hm⟩ : ∃ m, route.length - 1 = m + 1 := ⟨route.length - 2, by omega⟩
  cases speeds0 with
  | none =>
    rw [evaluate.eq_def, if_neg (Nat.not_lt_of_le h2)]
    dsimp only
    rw [hm, List.range_succ_eq_map, List.foldlM_cons, evaluate_leg, hres]
    simp only [bind, Except.bind]
  | some s =>
    rw [evaluate.eq_def, if_neg (Nat.not_lt_of_le h2)]
    dsimp only
    rw [hm, List.range_succ_eq_map, List.foldlM_cons, evaluate_leg, hres]
    simp only [bind, Except.bind]

/-- C8 counterexample: on the two-waypoint route `(0,0) → (0,1)` whose
resistance query raises, `evaluate` aborts with the error — it does not
substitute neutral defaults and continue, and its result records no
substitution counter. -/
theorem evaluate_ocean_fault_cex :
    evaluate faultObjective [(0, 0), (0, 1)] (some [10]) =
      .error .ocean_fault := by
  rfl

theorem particle_step_position_length (deps : EngineDeps) (s : HACOPSOEngine)
    (bounds : (ℚ × ℚ) × (ℚ × ℚ)) (inertia : ℚ)
    (archive : ParetoArchiveManager Route (List ℚ)) (p : Particle) (rng : Rng)
    (clk : Clock) :
    (HACOPSOEngine.particle_step deps s bounds inertia archive p rng clk).1.position.length
      = p.position.length := by
  unfold HACOPSOEngine.particle_step HACOPSOEngine.particle_finish
  dsimp only
  simp

theorem particle_step_pinned (deps : EngineDeps) (s : HACOPSOEngine)
    (bounds : (ℚ × ℚ) × (ℚ × ℚ)) (inertia : ℚ)
    (archive : ParetoArchiveManager Route (List ℚ)) (p : Particle) (rng : Rng)
    (clk : Clock) (hlen : 2 ≤ p.position.length) :
    Pinned s.origin s.destination
      (HACOPSOEngine.particle_step deps s bounds inertia archive p rng clk).1 := by
  have hlenq := particle_step_position_length deps s bounds inertia archive p rng clk
  refine ⟨by omega, ?_, ?_⟩
  · unfold HACOPSOEngine.particle_step HACOPSOEngine.particle_finish
    dsimp only
    rw [List.getD_eq_getElem?_getD,
      List.getElem?_set_ne (by simp; omega),
      ← List.getD_eq_getElem?_getD, List.getD_eq_getElem _ _ (by simp; omega),
      List.getElem_set_self (by simp; omega)]
  · rw [hlenq]
    unfold HACOPSOEngine.particle_step HACOPSOEngine.particle_finish
    dsimp only
    rw [List.getD_eq_getElem _ _ (by simp; omega),
      List.getElem_set_self (by simp; omega)]

theorem opposition_route_endpoint (bounds : (ℚ × ℚ) × (ℚ × ℚ)) (route : Route)
    (i : ℕ) (hi : ¬(1 ≤ i ∧ i + 1 < route.length)) :
    (opposition_route bounds route).getD i (0, 0) = route.getD i (0, 0) := by
  rw [opposition_route, List.getD_eq_getElem?_getD, List.getD_eq_getElem?_getD,
    List.getElem?_map, List.getElem?_enum]
  rcases route[i]? with - | x
  · rfl
  · simp [hi]

theorem opposition_route_length (bounds : (ℚ × ℚ) × (ℚ × ℚ)) (route : Route) :
    (opposition_route bounds route).length = route.length := by
  rw [opposition_route, List.length_map, List.enum_length]

theorem opposition_step_pinned (deps : EngineDeps) (weights : List ℚ)
    (bounds : (ℚ × ℚ) × (ℚ × ℚ)) (clk : Clock) {o d : ℚ × ℚ} {p : Particle}
    (h : Pinned o d p) :
    Pinned o d (HACOPSOEngine.opposition_step deps weights bounds p clk).1 := by
  obtain ⟨hl, h0, he⟩ := h
  unfold HACOPSOEngine.opposition_step
  dsimp only
  split
  · refine ⟨?_, ?_, ?_⟩
    · show 2 ≤ (opposition_route bounds p.position).length
      rw [opposition_route_length]
      exact hl
    · show (opposition_route bounds p.position).getD 0 (0, 0) = o
      rw [opposition_route_endpoint bounds p.position 0 (by omega)]
      exact h0
    · show (opposition_route bounds p.position).getD
        ((opposition_route bounds p.position).length - 1) (0, 0) = d
      rw [opposition_route_length,
        opposition_route_endpoint bounds p.position (p.position.length - 1)
          (by omega)]
      exact he
  · exact ⟨hl, h0, he⟩

theorem particle_loop_pinned (deps : EngineDeps) (s : HACOPSOEngine)
    (bounds : (ℚ × ℚ) × (ℚ × ℚ)) (inertia : ℚ) :
    ∀ (ps : List Particle) (archive : ParetoArchiveManager Route (List ℚ))
      (rng : Rng) (clk : Clock), (∀ p ∈ ps, 2 ≤ p.position.length) →
      ∀ q ∈ (HACOPSOEngine.particle_loop deps s bounds inertia ps archive rng clk).1,
        Pinned s.origin s.destination q := by
  intro ps
  induction ps with
  | nil => intro archive rng clk hlen q hq; exact absurd hq (List.not_mem_nil q)
  | cons p rest ih =>
    intro archive rng clk hlen q hq
    rw [HACOPSOEngine.particle_loop] at hq
    rcases List.mem_cons.mp hq with rfl | hmem
    · exact particle_step_pinned deps s bounds inertia archive p rng clk
        (hlen p (List.mem_cons_self p rest))
    · exact ih _ _ _ (fun x hx => hlen x (List.mem_cons_of_mem p hx)) q hmem

theorem mem_opposition_loop (deps : EngineDeps) (weights : List ℚ)
    (bounds : (ℚ × ℚ) × (ℚ × ℚ)) :
    ∀ (ps : List Particle) (clk : Clock) (q : Particle),
      q ∈ (HACOPSOEngine.opposition_loop deps weights bounds ps clk).1 →
      ∃ p ∈ ps, ∃ c : Clock,
        q = (HACOPSOEngine.opposition_step deps weights bounds p c).1 := by
  intro ps
  induction ps with
  | nil => intro clk q hq; exact absurd hq (List.not_mem_nil q)
  | cons p rest ih =>
    intro clk q hq
    rw [HACOPSOEngine.opposition_loop] at hq
    rcases List.mem_cons.mp hq with rfl | hmem
    · exact ⟨p, List.mem_cons_self p rest, clk, rfl⟩
    · rcases ih _ q hmem with ⟨x, hx, c, hc⟩
      exact ⟨x, List.mem_cons_of_mem p hx, c, hc⟩

theorem update_global_best_fields (s : HACOPSOEngine) :
    s.update_global_best.particles = s.particles ∧
    s.update_global_best.origin = s.origin ∧
    s.update_global_best.destination = s.destination ∧
    s.update_global_best.weights = s.weights ∧
    s.update_global_best.config = s.config ∧
    s.update_global_best.archive = s.archive := by
  rw [HACOPSOEngine.update_global_best]
  rcases pymin_particle s.particles with - | best
  · exact ⟨rfl, rfl, rfl, rfl, rfl, rfl⟩
  · rcases s.global_best with - | gb
    · exact ⟨rfl, rfl, rfl, rfl, rfl, rfl⟩
    · rcases s.global_best_obj with - | gbo
      · exact ⟨rfl, rfl, rfl, rfl, rfl, rfl⟩
      · dsimp only
        split <;> exact ⟨rfl, rfl, rfl, rfl, rfl, rfl⟩

theorem iterate_preserves_fields (deps : EngineDeps) (s : HACOPSOEngine)
    (rng : Rng) (clk : Clock) :
    (HACOPSOEngine.iterate deps s rng clk).1.origin = s.origin ∧
    (HACOPSOEngine.iterate deps s rng clk).1.destination = s.destination ∧
    (HACOPSOEngine.iterate deps s rng clk).1.weights = s.weights ∧
    (HACOPSOEngine.iterate deps s rng clk).1.config = s.config := by
  rw [HACOPSOEngine.iterate]
  dsimp only
  have hu := update_global_best_fields
    { s.chaotic_inertia_weight deps |>.2 with
      particles := (HACOPSOEngine.particle_loop deps
        (s.chaotic_inertia_weight deps).2 s.get_bounds
        (s.chaotic_inertia_weight deps).1
        (s.chaotic_inertia_weight deps).2.particles
        (s.chaotic_inertia_weight deps).2.archive rng clk).1,
      archive := (HACOPSOEngine.particle_loop deps
        (s.chaotic_inertia_weight deps).2 s.get_bounds
        (s.chaotic_inertia_weight deps).1
        (s.chaotic_inertia_weight deps).2.particles
        (s.chaotic_inertia_weight deps).2.archive rng clk).2.1 }
  split
  · split
    · exact ⟨hu.2.1, hu.2.2.1, hu.2.2.2.1, hu.2.2.2.2.1⟩
    · exact ⟨hu.2.1, hu.2.2.1, hu.2.2.2.1, hu.2.2.2.2.1⟩
  · exact ⟨hu.2.1, hu.2.2.1, hu.2.2.2.1, hu.2.2.2.2.1⟩

theorem iterate_pinned (deps : EngineDeps) (s : HACOPSOEngine) (rng : Rng)
    (clk : Clock) (hlen : ∀ p ∈ s.particles, 2 ≤ p.position.length) :
    ∀ q ∈ (HACOPSOEngine.iterate deps s rng clk).1.particles,
      Pinned s.origin s.destination q := by
  intro q hq
  rw [HACOPSOEngine.iterate] at hq
  dsimp only at hq
  set s1 := (s.chaotic_inertia_weight deps).2 with hs1
  have hdo : s1.origin = s.origin ∧ s1.destination = s.destination ∧
      s1.particles = s.particles := ⟨rfl, rfl, rfl⟩
  set s2 := { s1 with
    particles := (HACOPSOEngine.particle_loop deps s1 s.get_bounds
      (s.chaotic_inertia_weight deps).1 s1.particles s1.archive rng clk).1,
    archive := (HACOPSOEngine.particle_loop deps s1 s.get_bounds
      (s.chaotic_inertia_weight deps).1 s1.particles s1.archive rng clk).2.1 } with hs2
  have hloop : ∀ q ∈ s2.particles, Pinned s.origin s.destination q := by
    intro x hx
    rw [hs2] at hx
    have := particle_loop_pinned deps s1 s.get_bounds
      (s.chaotic_inertia_weight deps).1 s1.particles s1.archive rng clk
      (by rw [hdo.2.2]; exact hlen) x hx
    rwa [hdo.1, hdo.2.1] at this
  have hs3 : ∀ q ∈ s2.update_global_best.particles,
      Pinned s.origin s.destination q := by
    rw [(update_global_best_fields s2).1]
    exact hloop
  split at hq
  · split at hq
    · obtain ⟨x, hx, c, rfl⟩ := mem_opposition_loop deps _ _ _ _ q hq
      exact opposition_step_pinned deps _ _ c (hs3 x hx)
    · exact hs3 q hq
  · exact hs3 q hq

/-- C6: after any positive number of `iterate` calls — including iterations
that apply opposition-based replacement, and regardless of how the swarm
was seeded (warm-start particles included) — every particle's position holds
exactly the origin at index 0 and exactly the destination at the last
index. -/
theorem hacopso_endpoint_pinning (deps : EngineDeps) (s : HACOPSOEngine)
    (rng : Rng) (clk : Clock) (n : ℕ) (hn : 1 ≤ n)
    (hlen : ∀ p ∈ s.particles, 2 ≤ p.position.length) :
    ∀ p ∈ (HACOPSOEngine.iterateN deps n (s, rng, clk)).1.particles,
      p.position.getD 0 (0, 0) = s.origin ∧
      p.position.getD (p.position.length - 1) (0, 0) = s.destination := by
  induction n generalizing s rng clk with
  | zero => omega
  | succ m ih =>
    rcases Nat.eq_zero_or_pos m with rfl | hm
    · show ∀ p ∈ (HACOPSOEngine.iterate deps s rng clk).1.particles, _
      intro p hp
      exact ⟨(iterate_pinned deps s rng clk hlen p hp).2.1,
        (iterate_pinned deps s rng clk hlen p hp).2.2⟩
    · show ∀ p ∈ (HACOPSOEngine.iterateN deps m
        (HACOPSOEngine.iterate deps s rng clk)).1.particles, _
      intro p hp
      have hfields := iterate_preserves_fields deps s rng clk
      have hlen2 : ∀ q ∈ (HACOPSOEngine.iterate deps s rng clk).1.particles,
          2 ≤ q.position.length :=
        fun q hq => (iterate_pinned deps s rng clk hlen q hq).1
      have := ih (HACOPSOEngine.iterate deps s rng clk).1
        (HACOPSOEngine.iterate deps s rng clk).2.1
        (HACOPSOEngine.iterate deps s rng clk).2.2 hm hlen2 p (by simpa using hp)
      rwa [hfields.1, hfields.2.1] at this

theorem particle_finish_pbest (deps : EngineDeps) (weights : List ℚ)
    (archive : ParetoArchiveManager Route (List ℚ)) (p : Particle)
    (pos3 velocity2 : Route) (rng2 : Rng) (clk : Clock)
    (hpen : ∀ r sp t, 0 ≤ calculate_penalty (deps.check_route_deps r sp t)) :
    dotQ weights
        (HACOPSOEngine.particle_finish deps weights archive p pos3 velocity2 rng2 clk).1.personal_best_obj
      ≤ dotQ weights p.personal_best_obj ∧
    dotQ weights
        (HACOPSOEngine.particle_finish deps weights archive p pos3 velocity2 rng2 clk).1.personal_best_obj
      ≤ (HACOPSOEngine.particle_finish deps weights archive p pos3 velocity2 rng2 clk).1.fitness := by
  unfold HACOPSOEngine.particle_finish
  dsimp only
  split
  · rename_i hlt
    constructor
    · refine le_of_lt (lt_of_le_of_lt ?_ hlt)
      exact le_add_of_nonneg_right (hpen _ _ _)
    · exact le_add_of_nonneg_right (hpen _ _ _)
  · rename_i hge
    exact ⟨le_refl _, le_of_not_lt hge⟩

theorem particle_step_pbest (deps : EngineDeps) (s : HACOPSOEngine)
    (bounds : (ℚ × ℚ) × (ℚ × ℚ)) (inertia : ℚ)
    (archive : ParetoArchiveManager Route (List ℚ)) (p : Particle) (rng : Rng)
    (clk : Clock)
    (hpen : ∀ r sp t, 0 ≤ calculate_penalty (deps.check_route_deps r sp t)) :
    dotQ s.weights
        (HACOPSOEngine.particle_step deps s bounds inertia archive p rng clk).1.personal_best_obj
      ≤ dotQ s.weights p.personal_best_obj ∧
    dotQ s.weights
        (HACOPSOEngine.particle_step deps s bounds inertia archive p rng clk).1.personal_best_obj
      ≤ (HACOPSOEngine.particle_step deps s bounds inertia archive p rng clk).1.fitness :=
  particle_finish_pbest deps s.weights archive p _ _ _ _ hpen

theorem particle_loop_pbest (deps : EngineDeps) (s : HACOPSOEngine)
    (bounds : (ℚ × ℚ) × (ℚ × ℚ)) (inertia : ℚ)
    (hpen : ∀ r sp t, 0 ≤ calculate_penalty (deps.check_route_deps r sp t)) :
    ∀ (ps : List Particle) (archive : ParetoArchiveManager Route (List ℚ))
      (rng : Rng) (clk : Clock), ∀ i : ℕ,
      dotQ s.weights
          (((HACOPSOEngine.particle_loop deps s bounds inertia ps archive rng clk).1.getD
            i dfltParticle).personal_best_obj)
        ≤ dotQ s.weights ((ps.getD i dfltParticle).personal_best_obj) ∧
      dotQ s.weights
          (((HACOPSOEngine.particle_loop deps s bounds inertia ps archive rng clk).1.getD
            i dfltParticle).personal_best_obj)
        ≤ ((HACOPSOEngine.particle_loop deps s bounds inertia ps archive rng clk).1.getD
            i dfltParticle).fitness := by
  intro ps
  induction ps with
  | nil =>
    intro archive rng clk i
    constructor <;> simp [HACOPSOEngine.particle_loop, dfltParticle, dotQ]
  | cons p rest ih =>
    intro archive rng clk i
    rw [HACOPSOEngine.particle_loop]
    cases i with
    | zero =>
      simpa using particle_step_pbest deps s bounds inertia archive p rng clk hpen
    | succ j =>
      simpa using ih _ _ _ j

theorem pymin_particle_mem {ps : List Particle} {b : Particle}
    (h : pymin_particle ps = some b) : b ∈ ps := by
  cases ps with
  | nil => cases h
  | cons p rest =>
    rw [pymin_particle] at h
    have haux : ∀ (l : List Particle) (acc : Particle),
        l.foldl (fun best q => if q.fitness < best.fitness then q else best) acc
          = acc ∨
        l.foldl (fun best q => if q.fitness < best.fitness then q else best) acc
          ∈ l := by
      intro l
      induction l with
      | nil => intro acc; exact Or.inl rfl
      | cons x xs ihl =>
        intro acc
        rw [List.foldl_cons]
        rcases ihl (if x.fitness < acc.fitness then x else acc) with heq | hmem
        · rw [heq]
          split
          · exact Or.inr (List.mem_cons_self x xs)
          · exact Or.inl rfl
        · exact Or.inr (List.mem_cons_of_mem x hmem)
    injection h with h
    rcases haux rest p with heq | hmem
    · rw [← h, heq]
      exact List.mem_cons_self p rest
    · rw [← h]
      exact List.mem_cons_of_mem p hmem

theorem update_global_best_gbest (s : HACOPSOEngine)
    (hinv : ∀ p ∈ s.particles,
      dotQ s.weights p.personal_best_obj ≤ p.fitness)
    (gb : Route) (gbo : ObjVec) (hgb : s.global_best = some gb)
    (hgbo : s.global_best_obj = some gbo) :
    ∃ gbo2, s.update_global_best.global_best_obj = some gbo2 ∧
      dotQ s.weights gbo2 ≤ dotQ s.weights gbo := by
  rw [HACOPSOEngine.update_global_best]
  rcases hmin : pymin_particle s.particles with - | best
  · exact ⟨gbo, hgbo, le_refl _⟩
  · rw [hgb, hgbo]
    dsimp only
    split
    · rename_i hlt
      refine ⟨best.personal_best_obj, rfl, ?_⟩
      exact le_of_lt (lt_of_le_of_lt (hinv best (pymin_particle_mem hmin)) hlt)
    · exact ⟨gbo, rfl, le_refl _⟩

theorem opposition_step_pbo (deps : EngineDeps) (weights : List ℚ)
    (bounds : (ℚ × ℚ) × (ℚ × ℚ)) (p : Particle) (clk : Clock) :
    (HACOPSOEngine.opposition_step deps weights bounds p clk).1.personal_best_obj
      = p.personal_best_obj := by
  rw [HACOPSOEngine.opposition_step]
  dsimp only
  split <;> rfl

theorem opposition_loop_getD_pbo (deps : EngineDeps) (weights : List ℚ)
    (bounds : (ℚ × ℚ) × (ℚ × ℚ)) :
    ∀ (l : List Particle) (clk : Clock) (i : ℕ),
      (((HACOPSOEngine.opposition_loop deps weights bounds l clk).1.getD i
          dfltParticle)).personal_best_obj
        = ((l.getD i dfltParticle)).personal_best_obj := by
  intro l
  induction l with
  | nil => intro clk i; rfl
  | cons p rest ih =>
    intro clk i
    rw [HACOPSOEngine.opposition_loop]
    cases i with
    | zero => simpa using opposition_step_pbo deps weights bounds p clk
    | succ j => simpa using ih _ j

theorem iterate_monotone (deps : EngineDeps) (s : HACOPSOEngine) (rng : Rng)
    (clk : Clock)
    (hpen : ∀ r sp t, 0 ≤ calculate_penalty (deps.check_route_deps r sp t)) :
    (∀ i : ℕ,
      dotQ s.weights
          (((HACOPSOEngine.iterate deps s rng clk).1.particles.getD i
            dfltParticle).personal_best_obj)
        ≤ dotQ s.weights ((s.particles.getD i dfltParticle).personal_best_obj)) ∧
    (∀ gb gbo, s.global_best = some gb → s.global_best_obj = some gbo →
      ∃ gbo2, (HACOPSOEngine.iterate deps s rng clk).1.global_best_obj = some gbo2 ∧
        dotQ s.weights gbo2 ≤ dotQ s.weights gbo) := by
  rw [HACOPSOEngine.iterate]
  dsimp only
  set s1 := (s.chaotic_inertia_weight deps).2 with hs1
  set loop := HACOPSOEngine.particle_loop deps s1 s.get_bounds
    (s.chaotic_inertia_weight deps).1 s1.particles s1.archive rng clk with hloop
  set s2 : HACOPSOEngine :=
    { s1 with particles := loop.1, archive := loop.2.1 } with hs2
  have hw1 : s1.weights = s.weights := rfl
  have hp1 : s1.particles = s.particles := rfl
  have hloopfacts := particle_loop_pbest deps s1 s.get_bounds
    (s.chaotic_inertia_weight deps).1 hpen s1.particles s1.archive rng clk
  have hinv : ∀ p ∈ s2.particles,
      dotQ s2.weights p.personal_best_obj ≤ p.fitness := by
    intro p hp
    rcases List.mem_iff_getElem.mp hp with ⟨i, hilt, hie⟩
    have := (hloopfacts i).2
    rwa [List.getD_eq_getElem _ _ hilt, hie] at this
  have hufields := update_global_best_fields s2
  constructor
  · intro i
    have hstep : dotQ s.weights
        ((s2.update_global_best.particles.getD i dfltParticle).personal_best_obj)
        ≤ dotQ s.weights ((s.particles.getD i dfltParticle).personal_best_obj) := by
      rw [hufields.1]
      have := (hloopfacts i).1
      rwa [hw1, hp1] at this
    split
    · split
      · rw [opposition_loop_getD_pbo]
        exact hstep
      · exact hstep
    · exact hstep
  · intro gb gbo hgb hgbo
    have hu := update_global_best_gbest s2 hinv gb gbo (by rw [hs2]; exact hgb)
      (by rw [hs2]; exact hgbo)
    rcases hu with ⟨gbo2, hgbo2, hle⟩
    split
    · split
      · exact ⟨gbo2, hgbo2, hle⟩
      · exact ⟨gbo2, hgbo2, hle⟩
    · exact ⟨gbo2, hgbo2, hle⟩

theorem iterateN_out (deps : EngineDeps) (n : ℕ)
    (sr : HACOPSOEngine × Rng × Clock) :
    HACOPSOEngine.iterateN deps (n + 1) sr =
      HACOPSOEngine.iterate deps (HACOPSOEngine.iterateN deps n sr).1
        (HACOPSOEngine.iterateN deps n sr).2.1
        (HACOPSOEngine.iterateN deps n sr).2.2 := by
  induction n generalizing sr with
  | zero => rfl
  | succ m ih =>
    show HACOPSOEngine.iterateN deps (m + 1)
        (HACOPSOEngine.iterate deps sr.1 sr.2.1 sr.2.2) = _
    rw [ih]
    rfl

theorem iterateN_weights (deps : EngineDeps) (n : ℕ)
    (sr : HACOPSOEngine × Rng × Clock) :
    (HACOPSOEngine.iterateN deps n sr).1.weights = sr.1.weights := by
  induction n generalizing sr with
  | zero => rfl
  | succ m ih =>
    show (HACOPSOEngine.iterateN deps m
      (HACOPSOEngine.iterate deps sr.1 sr.2.1 sr.2.2)).1.weights = _
    rw [ih]
    exact (iterate_preserves_fields deps sr.1 sr.2.1 sr.2.2).2.2.1

/-- C2: with non-negative objective weights and non-negative constraint
penalties, the weighted sum of each particle's personal-best objective
vector is non-increasing from one iteration to the next, and whenever a
global best is set, the weighted sum of the global-best objective vector is
non-increasing from one iteration to the next. -/
theorem hacopso_monotone_best (deps : EngineDeps) (s : HACOPSOEngine)
    (rng : Rng) (clk : Clock) (_hw : ∀ w ∈ s.weights, 0 ≤ w)
    (hpen : ∀ r sp t, 0 ≤ calculate_penalty (deps.check_route_deps r sp t))
    (n : ℕ) :
    (∀ i : ℕ,
      dotQ s.weights
          (((HACOPSOEngine.iterateN deps (n + 1) (s, rng, clk)).1.particles.getD i
            dfltParticle).personal_best_obj)
        ≤ dotQ s.weights
          (((HACOPSOEngine.iterateN deps n (s, rng, clk)).1.particles.getD i
            dfltParticle).personal_best_obj)) ∧
    (∀ gb gbo,
      (HACOPSOEngine.iterateN deps n (s, rng, clk)).1.global_best = some gb →
      (HACOPSOEngine.iterateN deps n (s, rng, clk)).1.global_best_obj = some gbo →
      ∃ gbo2,
        (HACOPSOEngine.iterateN deps (n + 1) (s, rng, clk)).1.global_best_obj
          = some gbo2 ∧
        dotQ s.weights gbo2 ≤ dotQ s.weights gbo) := by
  have hmid := iterate_monotone deps
    (HACOPSOEngine.iterateN deps n (s, rng, clk)).1
    (HACOPSOEngine.iterateN deps n (s, rng, clk)).2.1
    (HACOPSOEngine.iterateN deps n (s, rng, clk)).2.2 hpen
  rw [iterateN_weights deps n (s, rng, clk)] at hmid
  rw [iterateN_out deps n (s, rng, clk)]
  exact hmid

theorem create_particle_clock_inv (deps : EngineDeps)
    (c : Route → List ℚ → List ConstraintViolation)
    (hfac : deps.check_route_deps = fun r sp _ => c r sp)
    (s : HACOPSOEngine) (route : Route) (rng : Rng) (c1 c2 : Clock) :
    (s.create_particle deps route rng c1).1
        = (s.create_particle deps route rng c2).1 ∧
      (s.create_particle deps route rng c1).2.1
        = (s.create_particle deps route rng c2).2.1 := by
  unfold HACOPSOEngine.create_particle
  rw [hfac]
  exact ⟨rfl, rfl⟩

theorem particle_step_clock_inv (deps : EngineDeps)
    (c : Route → List ℚ → List ConstraintViolation)
    (hfac : deps.check_route_deps = fun r sp _ => c r sp)
    (s : HACOPSOEngine) (bounds : (ℚ × ℚ) × (ℚ × ℚ)) (inertia : ℚ)
    (archive : ParetoArchiveManager Route (List ℚ)) (p : Particle) (rng : Rng)
    (c1 c2 : Clock) :
    (HACOPSOEngine.particle_step deps s bounds inertia archive p rng c1).1
        = (HACOPSOEngine.particle_step deps s bounds inertia archive p rng c2).1 ∧
      (HACOPSOEngine.particle_step deps s bounds inertia archive p rng c1).2.1
        = (HACOPSOEngine.particle_step deps s bounds inertia archive p rng c2).2.1 ∧
      (HACOPSOEngine.particle_step deps s bounds inertia archive p rng c1).2.2.1
        = (HACOPSOEngine.particle_step deps s bounds inertia archive p rng c2).2.2.1 := by
  unfold HACOPSOEngine.particle_step HACOPSOEngine.particle_finish
  rw [hfac]
  exact ⟨rfl, rfl, rfl⟩

theorem particle_loop_clock_inv (deps : EngineDeps)
    (c : Route → List ℚ → List ConstraintViolation)
    (hfac : deps.check_route_deps = fun r sp _ => c r sp)
    (s : HACOPSOEngine) (bounds : (ℚ × ℚ) × (ℚ × ℚ)) (inertia : ℚ) :
    ∀ (ps : List Particle) (archive : ParetoArchiveManager Route (List ℚ))
      (rng : Rng) (c1 c2 : Clock),
      (HACOPSOEngine.particle_loop deps s bounds inertia ps archive rng c1).1
          = (HACOPSOEngine.particle_loop deps s bounds inertia ps archive rng c2).1 ∧
        (HACOPSOEngine.particle_loop deps s bounds inertia ps archive rng c1).2.1
          = (HACOPSOEngine.particle_loop deps s bounds inertia ps archive rng c2).2.1 ∧
        (HACOPSOEngine.particle_loop deps s bounds inertia ps archive rng c1).2.2.1
          = (HACOPSOEngine.particle_loop deps s bounds inertia ps archive rng c2).2.2.1 := by
  intro ps
  induction ps with
  | nil => intro archive rng c1 c2; exact ⟨rfl, rfl, rfl⟩
  | cons p rest ih =>
    intro archive rng c1 c2
    have hs := particle_step_clock_inv deps c hfac s bounds inertia archive p
      rng c1 c2
    rw [HACOPSOEngine.particle_loop, HACOPSOEngine.particle_loop]
    dsimp only
    rw [hs.1, hs.2.1, hs.2.2]
    have hr := ih
      (HACOPSOEngine.particle_step deps s bounds inertia archive p rng c2).2.1
      (HACOPSOEngine.particle_step deps s bounds inertia archive p rng c2).2.2.1
      (HACOPSOEngine.particle_step deps s bounds inertia archive p rng c1).2.2.2
      (HACOPSOEngine.particle_step deps s bounds inertia archive p rng c2).2.2.2
    rw [hr.1, hr.2.1, hr.2.2]
    exact ⟨rfl, rfl, rfl⟩

theorem opposition_step_clock_inv (deps : EngineDeps)
    (c : Route → List ℚ → List ConstraintViolation)
    (hfac : deps.check_route_deps = fun r sp _ => c r sp)
    (weights : List ℚ) (bounds : (ℚ × ℚ) × (ℚ × ℚ)) (p : Particle)
    (c1 c2 : Clock) :
    (HACOPSOEngine.opposition_step deps weights bounds p c1).1
      = (HACOPSOEngine.opposition_step deps weights bounds p c2).1 := by
  unfold HACOPSOEngine.opposition_step
  rw [hfac]

theorem opposition_loop_clock_inv (deps : EngineDeps)
    (c : Route → List ℚ → List ConstraintViolation)
    (hfac : deps.check_route_deps = fun r sp _ => c r sp)
    (weights : List ℚ) (bounds : (ℚ × ℚ) × (ℚ × ℚ)) :
    ∀ (ps : List Particle) (c1 c2 : Clock),
      (HACOPSOEngine.opposition_loop deps weights bounds ps c1).1
        = (HACOPSOEngine.opposition_loop deps weights bounds ps c2).1 := by
  intro ps
  induction ps with
  | nil => intro c1 c2; rfl
  | cons p rest ih =>
    intro c1 c2
    rw [HACOPSOEngine.opposition_loop, HACOPSOEngine.opposition_loop]
    dsimp only
    rw [opposition_step_clock_inv deps c hfac weights bounds p c1 c2,
      ih (HACOPSOEngine.opposition_step deps weights bounds p c1).2
        (HACOPSOEngine.opposition_step deps weights bounds p c2).2]

theorem iterate_clock_inv (deps : EngineDeps)
    (c : Route → List ℚ → List ConstraintViolation)
    (hfac : deps.check_route_deps = fun r sp _ => c r sp)
    (s : HACOPSOEngine) (rng : Rng) (c1 c2 : Clock) :
    (HACOPSOEngine.iterate deps s rng c1).1
        = (HACOPSOEngine.iterate deps s rng c2).1 ∧
      (HACOPSOEngine.iterate deps s rng c1).2.1
        = (HACOPSOEngine.iterate deps s rng c2).2.1 := by
  rw [HACOPSOEngine.iterate, HACOPSOEngine.iterate]
  dsimp only
  have hl := particle_loop_clock_inv deps c hfac
    (s.chaotic_inertia_weight deps).2 s.get_bounds
    (s.chaotic_inertia_weight deps).1
    (s.chaotic_inertia_weight deps).2.particles
    (s.chaotic_inertia_weight deps).2.archive rng c1 c2
  rw [hl.1, hl.2.1, hl.2.2]
  rw [opposition_loop_clock_inv deps c hfac _ _ _
    (HACOPSOEngine.particle_loop deps (s.chaotic_inertia_weight deps).2
      s.get_bounds (s.chaotic_inertia_weight deps).1
      (s.chaotic_inertia_weight deps).2.particles
      (s.chaotic_inertia_weight deps).2.archive rng c1).2.2.2
    (HACOPSOEngine.particle_loop deps (s.chaotic_inertia_weight deps).2
      s.get_bounds (s.chaotic_inertia_weight deps).1
      (s.chaotic_inertia_weight deps).2.particles
      (s.chaotic_inertia_weight deps).2.archive rng c2).2.2.2]
  constructor
  · split
    · split
      · rfl
      · rfl
    · rfl
  · split
    · split
      · rfl
      · rfl
    · rfl

theorem optimize_loop_clock_inv (deps : EngineDeps)
    (c : Route → List ℚ → List ConstraintViolation)
    (hfac : deps.check_route_deps = fun r sp _ => c r sp) :
    ∀ (k : ℕ) (s : HACOPSOEngine) (rng : Rng) (c1 c2 : Clock),
      (HACOPSOEngine.optimize_loop deps k s rng c1).1
          = (HACOPSOEngine.optimize_loop deps k s rng c2).1 ∧
        (HACOPSOEngine.optimize_loop deps k s rng c1).2.1
          = (HACOPSOEngine.optimize_loop deps k s rng c2).2.1 := by
  intro k
  induction k with
  | zero => intro s rng c1 c2; exact ⟨rfl, rfl⟩
  | succ m ih =>
    intro s rng c1 c2
    have hi := iterate_clock_inv deps c hfac s rng c1 c2
    rw [HACOPSOEngine.optimize_loop, HACOPSOEngine.optimize_loop]
    refine ⟨?_, ?_⟩
    · rw [hi.1, hi.2]
      split
      · exact hi.1
      · exact (ih _ _ _ _).1
    · rw [hi.1, hi.2]
      split
      · exact hi.2
      · exact (ih _ _ _ _).2

theorem seed_particles_clock_inv (deps : EngineDeps)
    (c : Route → List ℚ → List ConstraintViolation)
    (hfac : deps.check_route_deps = fun r sp _ => c r sp) (s : HACOPSOEngine) :
    ∀ (routes : List Route) (acc : List Particle) (rng : Rng) (c1 c2 : Clock),
      (HACOPSOEngine.seed_particles deps s routes acc rng c1).1
          = (HACOPSOEngine.seed_particles deps s routes acc rng c2).1 ∧
        (HACOPSOEngine.seed_particles deps s routes acc rng c1).2.1
          = (HACOPSOEngine.seed_particles deps s routes acc rng c2).2.1 := by
  intro routes
  induction routes with
  | nil => intro acc rng c1 c2; exact ⟨rfl, rfl⟩
  | cons route rest ih =>
    intro acc rng c1 c2
    have hc := create_particle_clock_inv deps c hfac s route rng c1 c2
    rw [HACOPSOEngine.seed_particles, HACOPSOEngine.seed_particles]
    rw [hc.1, hc.2]
    have hr := ih (acc ++ [(s.create_particle deps route rng c2).1])
      (s.create_particle deps route rng c2).2.1
      (s.create_particle deps route rng c1).2.2
      (s.create_particle deps route rng c2).2.2
    rw [hr.1, hr.2]
    exact ⟨rfl, rfl⟩

theorem fill_swarm_clock_inv (deps : EngineDeps)
    (c : Route → List ℚ → List ConstraintViolation)
    (hfac : deps.check_route_deps = fun r sp _ => c r sp) (s : HACOPSOEngine)
    (bounds : (ℚ × ℚ) × (ℚ × ℚ)) :
    ∀ (fuel : ℕ) (ps : List Particle) (rng : Rng) (c1 c2 : Clock),
      (HACOPSOEngine.fill_swarm deps s bounds fuel ps rng c1).1
          = (HACOPSOEngine.fill_swarm deps s bounds fuel ps rng c2).1 ∧
        (HACOPSOEngine.fill_swarm deps s bounds fuel ps rng c1).2.1
          = (HACOPSOEngine.fill_swarm deps s bounds fuel ps rng c2).2.1 := by
  intro fuel
  induction fuel with
  | zero => intro ps rng c1 c2; exact ⟨rfl, rfl⟩
  | succ m ih =>
    intro ps rng c1 c2
    rw [HACOPSOEngine.fill_swarm, HACOPSOEngine.fill_swarm]
    dsimp only
    split
    · exact ⟨rfl, rfl⟩
    · have h1 := create_particle_clock_inv deps c hfac s
        (s.generate_random_route bounds rng).1
        (s.generate_random_route bounds rng).2 c1 c2
      rw [h1.1, h1.2]
      split
      · have h2 := create_particle_clock_inv deps c hfac s
          (opposition_route bounds (s.generate_random_route bounds rng).1)
          (s.create_particle deps (s.generate_random_route bounds rng).1
            (s.generate_random_route bounds rng).2 c2).2.1
          (s.create_particle deps (s.generate_random_route bounds rng).1
            (s.generate_random_route bounds rng).2 c1).2.2
          (s.create_particle deps (s.generate_random_route bounds rng).1
            (s.generate_random_route bounds rng).2 c2).2.2
        rw [h2.1, h2.2]
        exact ih _ _ _ _
      · exact ih _ _ _ _

theorem initialize_swarm_clock_inv (deps : EngineDeps)
    (c : Route → List ℚ → List ConstraintViolation)
    (hfac : deps.check_route_deps = fun r sp _ => c r sp) (s : HACOPSOEngine)
    (warm_start : Option (List Route)) (rng : Rng) (c1 c2 : Clock) :
    (HACOPSOEngine.initialize_swarm deps s warm_start rng c1).1
        = (HACOPSOEngine.initialize_swarm deps s warm_start rng c2).1 ∧
      (HACOPSOEngine.initialize_swarm deps s warm_start rng c1).2.1
        = (HACOPSOEngine.initialize_swarm deps s warm_start rng c2).2.1 := by
  unfold HACOPSOEngine.initialize_swarm
  rcases warm_start with - | ws
  · dsimp only
    have hf := fill_swarm_clock_inv deps c hfac s s.get_bounds
      s.config.swarm_size [] rng c1 c2
    rw [hf.1, hf.2]
    exact ⟨rfl, rfl⟩
  · dsimp only
    split
    · have hf := fill_swarm_clock_inv deps c hfac s s.get_bounds
        s.config.swarm_size [] rng c1 c2
      rw [hf.1, hf.2]
      exact ⟨rfl, rfl⟩
    · have hs := seed_particles_clock_inv deps c hfac s
        (ws.take (s.config.swarm_size / 4)) [] rng c1 c2
      rw [hs.1, hs.2]
      have hf := fill_swarm_clock_inv deps c hfac s s.get_bounds
        s.config.swarm_size
        (HACOPSOEngine.seed_particles deps s
          (ws.take (s.config.swarm_size / 4)) [] rng c2).1
        (HACOPSOEngine.seed_particles deps s
          (ws.take (s.config.swarm_size / 4)) [] rng c2).2.1
        (HACOPSOEngine.seed_particles deps s
          (ws.take (s.config.swarm_size / 4)) [] rng c1).2.2
        (HACOPSOEngine.seed_particles deps s
          (ws.take (s.config.swarm_size / 4)) [] rng c2).2.2
      rw [hf.1, hf.2]
      exact ⟨rfl, rfl⟩

theorem run_clock_inv (deps : EngineDeps)
    (c : Route → List ℚ → List ConstraintViolation)
    (hfac : deps.check_route_deps = fun r sp _ => c r sp)
    (config : HACOPSOConfig) (origin destination : ℚ × ℚ)
    (weights : Option (List ℚ)) (warm_start : Option (List Route))
    (seed : ℕ → ℚ) (clock1 clock2 : ℕ → ℚ) :
    (HACOPSOEngine.run deps config origin destination weights warm_start
        seed clock1).1
      = (HACOPSOEngine.run deps config origin destination weights warm_start
        seed clock2).1 := by
  unfold HACOPSOEngine.run HACOPSOEngine.optimize
  dsimp only
  have hi := initialize_swarm_clock_inv deps c hfac
    (HACOPSOEngine.init config origin destination weights ⟨seed, 0⟩).1
    warm_start
    (HACOPSOEngine.init config origin destination weights ⟨seed, 0⟩).2
    ⟨clock1, 0⟩ ⟨clock2, 0⟩
  rw [hi.1, hi.2]
  exact (optimize_loop_clock_inv deps c hfac _ _ _
    (HACOPSOEngine.initialize_swarm deps
      (HACOPSOEngine.init config origin destination weights ⟨seed, 0⟩).1
      warm_start
      (HACOPSOEngine.init config origin destination weights ⟨seed, 0⟩).2
      ⟨clock1, 0⟩).2.2
    (HACOPSOEngine.initialize_swarm deps
      (HACOPSOEngine.init config origin destination weights ⟨seed, 0⟩).1
      warm_start
      (HACOPSOEngine.init config origin destination weights ⟨seed, 0⟩).2
      ⟨clock2, 0⟩).2.2).1

/-- C3 (amended): the modelled run is a pure function of the seed stream,
the configuration, the frozen environment, AND the stream of wall-clock
readings the constraint checks observe (`constraints.check_route`
substitutes `datetime.now().timestamp()` because the engine never passes a
`time` argument).  With equal seeds and equal clock readings two runs
coincide in `convergence_history` and archive contents in order; and when
every constraint check is insensitive to its timestamp, the runs coincide
for arbitrary clock readings.  Without that insensitivity two same-seed
runs can diverge (`hacopso_clock_nondeterminism_cex`). -/
theorem hacopso_run_deterministic (deps : EngineDeps) (config : HACOPSOConfig)
    (origin destination : ℚ × ℚ) (weights : Option (List ℚ))
    (warm_start : Option (List Route)) (seed1 seed2 clock1 clock2 : ℕ → ℚ)
    (hseed : seed1 = seed2) :
    (clock1 = clock2 →
      (HACOPSOEngine.run deps config origin destination weights warm_start
          seed1 clock1).1.convergence_history =
        (HACOPSOEngine.run deps config origin destination weights warm_start
          seed2 clock2).1.convergence_history ∧
      (HACOPSOEngine.run deps config origin destination weights warm_start
          seed1 clock1).1.archive.entries =
        (HACOPSOEngine.run deps config origin destination weights warm_start
          seed2 clock2).1.archive.entries) ∧
    ((∀ r sp t t', deps.check_route_deps r sp t = deps.check_route_deps r sp t') →
      (HACOPSOEngine.run deps config origin destination weights warm_start
          seed1 clock1).1.convergence_history =
        (HACOPSOEngine.run deps config origin destination weights warm_start
          seed2 clock2).1.convergence_history ∧
      (HACOPSOEngine.run deps config origin destination weights warm_start
          seed1 clock1).1.archive.entries =
        (HACOPSOEngine.run deps config origin destination weights warm_start
          seed2 clock2).1.archive.entries) := by
  subst hseed
  constructor
  · rintro rfl
    exact ⟨rfl, rfl⟩
  · intro hti
    have hfac : deps.check_route_deps =
        fun r sp _ => deps.check_route_deps r sp 0 :=
      funext fun r => funext fun sp => funext fun t => hti r sp t 0
    have h := run_clock_inv deps _ hfac config origin destination weights
      warm_start seed1 clock1 clock2
    exact ⟨congrArg HACOPSOEngine.convergence_history h,
      congrArg (fun e => e.archive.entries) h⟩

/-- C3 counterexample: against the frozen but time-sensitive environment of
`cexClockDeps` (one storm zone with `valid_until = 100`, which
`get_storm_risk` skips once the queried time exceeds it), two runs with the
SAME seed stream but wall-clock readings 0 (storm active, every waypoint a
storm violation) versus 1000 (zone expired, no violations) produce
different `convergence_history` values: the run is not a function of the
seed, configuration and frozen environment alone. -/
theorem hacopso_clock_nondeterminism_cex :
    (HACOPSOEngine.run cexClockDeps cexCfg (0, 0) (1, 1) none none
        (fun _ => 0) (fun _ => 0)).1.convergence_history ≠
      (HACOPSOEngine.run cexClockDeps cexCfg (0, 0) (1, 1) none none
        (fun _ => 0) (fun _ => 1000)).1.convergence_history := by
  with_unfolding_all decide

/-- C7: `dominates` is a strict partial order on objective vectors —
irreflexive, asymmetric, and transitive on vectors of equal dimension. -/
theorem dominates_order_laws :
    (∀ a : ObjVec, dominates a a = false) ∧
    (∀ a b : ObjVec, ¬(dominates a b = true ∧ dominates b a = true)) ∧
    (∀ a b c : ObjVec, a.length = b.length → b.length = c.length →
      dominates a b = true → dominates b c = true → dominates a c = true) :=
  ⟨dominates_self_false, dominates_asymm, dominates_trans⟩

theorem archive_add_antichain_bound_witness :
    PairwiseNonDom (⟨2, [⟨1, [0, 1], 1⟩]⟩ : ParetoArchiveManager ℕ ℕ).entries ∧
    (⟨2, [⟨1, [0, 1], 1⟩]⟩ : ParetoArchiveManager ℕ ℕ).entries.length ≤
      (⟨2, [⟨1, [0, 1], 1⟩]⟩ : ParetoArchiveManager ℕ ℕ).max_size ∧
    (PairwiseNonDom
        ((⟨2, [⟨1, [0, 1], 1⟩]⟩ : ParetoArchiveManager ℕ ℕ).add 2 [1, 0] 2).2.entries ∧
      ((⟨2, [⟨1, [0, 1], 1⟩]⟩ : ParetoArchiveManager ℕ ℕ).add 2 [1, 0] 2).2.entries.length ≤
        (⟨2, [⟨1, [0, 1], 1⟩]⟩ : ParetoArchiveManager ℕ ℕ).max_size) :=
  ⟨by decide, by decide,
   archive_add_antichain_bound (⟨2, [⟨1, [0, 1], 1⟩]⟩ : ParetoArchiveManager ℕ ℕ)
     2 [1, 0] 2 (by decide) (by decide)⟩

theorem hacopso_monotone_best_witness :
    (∀ w ∈ wEngine.weights, 0 ≤ w) ∧
    ((∀ i : ℕ,
      dotQ wEngine.weights
          (((HACOPSOEngine.iterateN wDeps 1 (wEngine, wRng, wClock)).1.particles.getD i
            dfltParticle).personal_best_obj)
        ≤ dotQ wEngine.weights
          (((HACOPSOEngine.iterateN wDeps 0 (wEngine, wRng, wClock)).1.particles.getD i
            dfltParticle).personal_best_obj)) ∧
    (∀ gb gbo,
      (HACOPSOEngine.iterateN wDeps 0 (wEngine, wRng, wClock)).1.global_best = some gb →
      (HACOPSOEngine.iterateN wDeps 0 (wEngine, wRng, wClock)).1.global_best_obj = some gbo →
      ∃ gbo2,
        (HACOPSOEngine.iterateN wDeps 1 (wEngine, wRng, wClock)).1.global_best_obj
          = some gbo2 ∧
        dotQ wEngine.weights gbo2 ≤ dotQ wEngine.weights gbo)) :=
  ⟨by decide,
   hacopso_monotone_best wDeps wEngine wRng wClock (by decide)
     (fun _ _ _ => le_refl 0) 0⟩

theorem hacopso_run_deterministic_witness :
    (∀ r sp t t', wDeps.check_route_deps r sp t = wDeps.check_route_deps r sp t') ∧
    ((HACOPSOEngine.run wDeps wCfg (0, 0) (1, 1) none none (fun _ => 0)
        (fun _ => 0)).1.convergence_history =
      (HACOPSOEngine.run wDeps wCfg (0, 0) (1, 1) none none (fun _ => 0)
        (fun _ => 7)).1.convergence_history ∧
    (HACOPSOEngine.run wDeps wCfg (0, 0) (1, 1) none none (fun _ => 0)
        (fun _ => 0)).1.archive.entries =
      (HACOPSOEngine.run wDeps wCfg (0, 0) (1, 1) none none (fun _ => 0)
        (fun _ => 7)).1.archive.entries) :=
  ⟨fun _ _ _ _ => rfl,
   (hacopso_run_deterministic wDeps wCfg (0, 0) (1, 1) none none
     (fun _ => 0) (fun _ => 0) (fun _ => 0) (fun _ => 7) rfl).2
     (fun _ _ _ _ => rfl)⟩

theorem truncate_selection_witness :
    wArchive4.max_size < wArchive4.entries.length ∧
    IsArgsortDesc (crowding_distance (wArchive4.entries.map (·.objective)))
      [1, 0] ∧
    ((([1, 0] : List ℕ).take wArchive4.max_size).Nodup ∧
      (([1, 0] : List ℕ).take wArchive4.max_size).length = wArchive4.max_size ∧
      (∀ i ∈ ([1, 0] : List ℕ).take wArchive4.max_size,
        i < wArchive4.entries.length) ∧
      (wArchive4.truncate_with [1, 0]).entries =
        selectIdx wArchive4.entries (([1, 0] : List ℕ).take wArchive4.max_size) ∧
      (wArchive4.truncate_with [1, 0]).entries.length = wArchive4.max_size) ∧
    (∀ i ∈ ([1, 0] : List ℕ).take wArchive4.max_size,
      ∀ j, j < wArchive4.entries.length →
      j ∉ ([1, 0] : List ℕ).take wArchive4.max_size →
      (crowding_distance (wArchive4.entries.map (·.objective))).getD j 0 ≤
        (crowding_distance (wArchive4.entries.map (·.objective))).getD i 0) ∧
    (wArchive4.max_size <
        ((List.range wArchive4.entries.length).filter (fun j =>
          decide ((crowding_distance
            (wArchive4.entries.map (·.objective))).getD j 0 = ⊤))).length →
      ∃ j, j < wArchive4.entries.length ∧
        (crowding_distance (wArchive4.entries.map (·.objective))).getD j 0 = ⊤ ∧
        j ∉ ([1, 0] : List ℕ).take wArchive4.max_size) ∧
    (wArchive4.truncate = wArchive4.truncate_with
        (argsortDescTop (crowding_distance (wArchive4.entries.map (·.objective)))) ∧
      IsArgsortDesc (crowding_distance (wArchive4.entries.map (·.objective)))
        (argsortDescTop (crowding_distance (wArchive4.entries.map (·.objective))))) :=
  ⟨by decide, by decide, truncate_selection wArchive4 [1, 0] (by decide) (by decide)⟩

theorem repair_route_amended_witness :
    (1 < ([(0, 0), (5, 5), (10, 10)] : Route).length ∧ (1 : ℕ) ≠ 0 ∧
      (1 : ℕ) ≠ ([(0, 0), (5, 5), (10, 10)] : Route).length - 1 ∧
      repairAccHandler.ocean.is_land
        (([(0, 0), (5, 5), (10, 10)] : Route).getD 1 (0, 0)).1
        (([(0, 0), (5, 5), (10, 10)] : Route).getD 1 (0, 0)).2 = true) ∧
    ((repair_pass repairAccHandler 0 [(0, 0), (5, 5), (10, 10)]).1.getD 1 (0, 0) =
      ((perturb_candidates
          (([(0, 0), (5, 5), (10, 10)] : Route).getD 1 (0, 0)).1
          (([(0, 0), (5, 5), (10, 10)] : Route).getD 1 (0, 0)).2).find?
        (fun c => !(repairAccHandler.ocean.is_land c.1 c.2))).getD
        (([(0, 0), (5, 5), (10, 10)] : Route).getD 1 (0, 0))) ∧
    ((perturb_candidates
        (([(0, 0), (5, 5), (10, 10)] : Route).getD 1 (0, 0)).1
        (([(0, 0), (5, 5), (10, 10)] : Route).getD 1 (0, 0)).2).find?
      (fun c => !(repairAccHandler.ocean.is_land c.1 c.2)))
      = some (5 + 1/10 * 1, 5 + 1/10 * 0) :=
  ⟨⟨by decide, by decide, by decide, by decide⟩,
   (repair_route_amended repairAccHandler 0 [(0, 0), (5, 5), (10, 10)] 10).2.2.1
     1 (by decide) (by decide) (by decide) (by decide),
   by with_unfolding_all decide⟩

theorem hacopso_endpoint_pinning_witness :
    (1 ≤ 1) ∧ (∀ p ∈ wEngine.particles, 2 ≤ p.position.length) ∧
    ∀ p ∈ (HACOPSOEngine.iterateN wDeps 1 (wEngine, wRng, wClock)).1.particles,
      p.position.getD 0 (0, 0) = wEngine.origin ∧
      p.position.getD (p.position.length - 1) (0, 0) = wEngine.destination :=
  ⟨by decide, by decide,
   hacopso_endpoint_pinning wDeps wEngine wRng wClock 1 (by decide) (by decide)⟩

theorem dominates_order_laws_witness :
    dominates [1, 2] [1, 2] = false ∧
    ¬(dominates [1, 2] [2, 1] = true ∧ dominates [2, 1] [1, 2] = true) ∧
    ([1, 2] : ObjVec).length = ([2, 3] : ObjVec).length ∧
    ([2, 3] : ObjVec).length = ([3, 4] : ObjVec).length ∧
    dominates [1, 2] [3, 4] = true :=
  ⟨dominates_order_laws.1 [1, 2],
   dominates_order_laws.2.1 [1, 2] [2, 1], by decide, by decide,
   dominates_order_laws.2.2 [1, 2] [2, 3] [3, 4] (by decide)
     (by decide) (by decide) (by decide)⟩

theorem evaluate_propagates_ocean_fault_witness :
    2 ≤ ([(0, 0), (0, 1)] : Route).length ∧
    evaluate faultObjective [(0, 0), (0, 1)] (some [10]) =
      .error .ocean_fault :=
  ⟨by decide,
   evaluate_propagates_ocean_fault faultObjective [(0, 0), (0, 1)] (some [10])
     .ocean_fault (by decide) rfl⟩

theorem add_duplicate_below_capacity_witness :
    PairwiseNonDom wArchive9.entries ∧
    ([5] : ObjVec) ∈ wArchive9.entries.map (·.objective) ∧
    wArchive9.entries.length < wArchive9.max_size ∧
    wArchive9.add 2 [5] 2 =
      (true, { wArchive9 with entries := wArchive9.entries ++ [⟨2, [5], 2⟩] }) :=
  ⟨by decide, by decide, by decide,
   add_duplicate_below_capacity wArchive9 2 [5] 2 (by decide) (by decide)
     (by decide)⟩

theorem evaluate_total_witness :
    OceanTotal wObjective.ocean ∧
    ([10] : List ℚ).length = ([(0, 0), (0, 1)] : Route).length - 1 ∧
    ((∃ v, evaluate wObjective [(0, 0), (0, 1)] (some [10]) = .ok v) ∧
    (∀ d ve, PyFloat.lt (.fin 0) ve = false → leg_time_of d ve = .ok .pinf) ∧
    (([(0, 0), (0, 1)] : Route).length < 2 →
      evaluate wObjective [(0, 0), (0, 1)] (some [10]) =
        .ok ⟨.pinf, .pinf, .fin 1, .pinf, .fin 0⟩)) :=
  ⟨⟨fun _ _ _ => ⟨_, rfl⟩, fun _ _ _ => ⟨_, rfl⟩, fun _ _ _ => ⟨_, rfl⟩,
    fun _ _ => ⟨_, rfl⟩, fun _ _ _ => ⟨_, rfl⟩⟩, by decide,
   evaluate_total wObjective [(0, 0), (0, 1)] [10]
     ⟨fun _ _ _ => ⟨_, rfl⟩, fun _ _ _ => ⟨_, rfl⟩, fun _ _ _ => ⟨_, rfl⟩,
      fun _ _ => ⟨_, rfl⟩, fun _ _ _ => ⟨_, rfl⟩⟩ (by decide)⟩

end Navix
